import Mathlib

/-!
Verification development for the Real-State ETL pipeline.

The pipeline (src/extract.py, src/src/transform2.py, src/src/load2.py,
src/src/main.py) extracts property listings per (city, state) from an HTTP
API, persists the raw JSON, normalizes it to a 15-column tabular shape, and
bulk-writes it to a `properties_data` destination table with replace/append
semantics.

The shallow embedding below models:
  * JSON scalar payload values (`Value`), property records, payloads;
  * pandas-style tables (`Table`) as column-name lists plus positional rows;
  * `transform` (transform2.py): flatten, select the 15 source-named
    columns (failing when one is absent), rename to canonical names;
  * `load_t0_db` (load2.py): the reconciliation pass (alias rename, null
    fill of missing canonical columns, label-based selection — which, as in
    pandas, returns every column matching a requested label) and the
    replace/append write;
  * `run_pipeline` (main.py): the per-city loop, with the `first` flag and
    the fact that the loop body has no exception handler, so a transform
    error aborts the whole run;
  * `extract_properties` (extract.py): the 200 / non-200 branches, the file
    it writes (`json.dump(data, f, indent=2)` — a re-serialization of the
    parsed body), and the console lines it emits;
  * a JSON serializer and parser restricted to the shapes the pipeline
    moves (arrays of flat objects with string / integer / null fields, no
    escape sequences), used to state byte-level properties of the raw
    artifact.
-/

namespace RealState

/-- A JSON scalar value as it occurs in a flattened property record.
Missing cells (pandas `NaN` / `pd.NA`) and JSON `null` are both `vnull`. -/
inductive Value where
  | vstr (s : String)
  | vnum (n : Int)
  | vnull
deriving DecidableEq, Repr

/-- One raw property record: a JSON object, field name ↦ value. -/
abbrev Record := List (String × Value)

/-- A raw payload: the JSON array of records returned by the API. -/
abbrev Payload := List Record

/-- A pandas-style data frame: column labels plus positionally aligned rows. -/
structure Table where
  cols : List String
  rows : List (List Value)
deriving DecidableEq, Repr

/-- The destination table's content: a bag of rows (order = insertion order). -/
abbrev Db := List (List Value)

/-- `STANDARD_COLS` from load2.py: the canonical 15-column schema. -/
def STANDARD_COLS : List String :=
  ["id", "address", "city", "state", "state_fips", "zip_code", "county", "county_fips",
   "latitude", "longitude", "property_type", "bedrooms", "bathrooms", "square_footage",
   "year_built"]

/-- `RENAME_MAP` from load2.py: alias column name ↦ canonical column name. -/
def RENAME_MAP : List (String × String) :=
  [("county_Fips", "county_fips"),
   ("formattedAddress", "address"),
   ("zipCode", "zip_code"),
   ("stateFips", "state_fips"),
   ("countyFips", "county_fips"),
   ("propertyType", "property_type"),
   ("squareFootage", "square_footage"),
   ("yearBuilt", "year_built")]

/-- Renaming one column label through `RENAME_MAP` (labels not in the map
are left unchanged, as `DataFrame.rename` does). -/
def renameL (c : String) : String :=
  (RENAME_MAP.lookup c).getD c

/-- The 15 source-named columns selected by transform2.py (`columns`). -/
def transformColumns : List String :=
  ["id", "formattedAddress", "city", "state", "stateFips", "zipCode", "county",
   "countyFips", "latitude", "longitude", "propertyType", "bedrooms", "bathrooms",
   "squareFootage", "yearBuilt"]

/-- The rename dictionary passed to `df.rename` in transform2.py. -/
def TRANSFORM_RENAME : List (String × String) :=
  [("formattedAddress", "address"),
   ("zipCode", "zip_code"),
   ("stateFips", "state_fips"),
   ("countyFips", "county_fips"),
   ("propertyType", "property_type"),
   ("squareFootage", "square_footage"),
   ("yearBuilt", "year_built")]

/-- Renaming one label through transform2.py's rename dictionary. -/
def renameT (c : String) : String :=
  (TRANSFORM_RENAME.lookup c).getD c

/-- The field names of one record, in order. -/
def recordKeys (r : Record) : List String :=
  r.map Prod.fst

/-- First-occurrence deduplication (auxiliary, with the seen accumulator). -/
def dedupFirstAux (seen : List String) : List String → List String
  | [] => []
  | c :: cs =>
    if seen.contains c then dedupFirstAux seen cs
    else c :: dedupFirstAux (c :: seen) cs

/-- First-occurrence deduplication, matching the column order
`pd.json_normalize` produces (first appearance wins). -/
def dedupFirst (l : List String) : List String :=
  dedupFirstAux [] l

/-- The column labels of `pd.json_normalize(data)`: every key occurring in
some record, in first-appearance order. -/
def normalizeCols (p : Payload) : List String :=
  dedupFirst (p.flatMap recordKeys)

/-- The cell of the flattened frame at record `r`, column `c`: the record's
value if the key is present, `NaN` (here `vnull`) otherwise. -/
def normalizeCell (r : Record) (c : String) : Value :=
  (r.lookup c).getD .vnull

/-- `transform` from transform2.py (the file I/O stripped: the payload read
from the raw artifact is the argument, the table written to the transformed
artifact is the result).  `df[columns]` raises a `KeyError` when one of the
15 source-named columns is absent from the flattened frame; that is the
`.error` branch.  On success the columns are renamed with
`TRANSFORM_RENAME`. -/
def transform (p : Payload) : Except String Table :=
  if transformColumns.all (fun c => (normalizeCols p).contains c) then
    .ok { cols := transformColumns.map renameT
        , rows := p.map (fun r => transformColumns.map (fun c => normalizeCell r c)) }
  else
    .error "KeyError: missing column"

/-- Step 2 of load2.py: `df.rename(columns=RENAME_MAP)` applied to the
label list. -/
def renameCols (cols : List String) : List String :=
  cols.map renameL

/-- The canonical columns absent from `cols`, in `STANDARD_COLS` order —
exactly the columns the loop in step 3 of load2.py appends. -/
def missingCols (cols : List String) : List String :=
  STANDARD_COLS.filter (fun s => ¬ cols.contains s)

/-- Step 3 of load2.py applied to the label list: each absent canonical
column is appended (in iteration order) at the end of the frame. -/
def fillCols (cols : List String) : List String :=
  cols ++ missingCols cols

/-- Step 3 of load2.py applied to one row: the appended columns hold
`pd.NA` (here `vnull`) in every row. -/
def fillRow (cols : List String) (row : List Value) : List Value :=
  row ++ List.replicate (missingCols cols).length Value.vnull

/-- Step 4 of load2.py, label part: `df[STANDARD_COLS]`.  As in pandas,
label-based selection returns, for each requested label, every column of
the frame carrying that label, so a frame with duplicate labels can
contribute more than one column per request. -/
def selectCols (cols : List String) : List String :=
  STANDARD_COLS.flatMap (fun s => cols.filter (fun c => c == s))

/-- Step 4 of load2.py, row part: the cells of the selected columns, in
selection order. -/
def selectRow (cols : List String) (row : List Value) : List Value :=
  STANDARD_COLS.flatMap
    (fun s => (cols.zip row).filterMap (fun p => if p.1 == s then some p.2 else none))

/-- The whole reconciliation pass of load2.py (steps 2–4): rename aliases,
fill absent canonical columns with nulls, select the canonical labels. -/
def reconcile (t : Table) : Table :=
  let c1 := renameCols t.cols
  { cols := selectCols (fillCols c1)
  , rows := t.rows.map (fun r => selectRow (fillCols c1) (fillRow c1 r)) }

/-- The two `if_exists` modes `load_t0_db` is called with. -/
inductive Mode where
  | replace
  | append
deriving DecidableEq, Repr

/-- `load_t0_db` from load2.py (step 5's `to_sql` modeled on the table
content): `replace` drops the existing rows, `append` keeps them. -/
def load_t0_db (t : Table) (mode : Mode) (db : Db) : Db :=
  match mode with
  | .replace => (reconcile t).rows
  | .append => db ++ (reconcile t).rows

/-- Observable per-city events of a pipeline run: the extraction-failure
console line of main.py, or a completed `load_t0_db` call with its mode and
the rows it wrote. -/
inductive Event where
  | extractFail (city state : String)
  | loaded (city state : String) (mode : Mode) (rows : Db)
deriving DecidableEq, Repr

/-- The outcome of (the rest of) a pipeline run: the events it produced, the
destination-table content when it stopped, and the uncaught exception, if
any, that terminated it early. -/
structure RunResult where
  events : List Event
  db : Db
  err : Option String
deriving DecidableEq, Repr

/-- The extraction environment: what `transform` will read for a city, i.e.
`some payload` when `extract_properties` returned a file name whose content
parses to `payload`, `none` when it returned `None`. -/
abbrev Env := String → String → Option Payload

/-- The per-city loop of `run_pipeline` (main.py).  The loop body has no
`try`/`except`: when `transform` raises (missing source column), the
exception propagates out of `run_pipeline`, so the run stops with the
destination table as it was and no further city is processed — that is the
`.error` branch.  `first` is the flag deciding replace vs. append; it flips
to `false` after the first successful load. -/
def runCities (env : Env) (first : Bool) (db : Db) : List (String × String) → RunResult
  | [] => { events := [], db := db, err := none }
  | (city, state) :: rest =>
    match env city state with
    | none =>
      let r := runCities env first db rest
      { r with events := .extractFail city state :: r.events }
    | some payload =>
      match transform payload with
      | .error e => { events := [], db := db, err := some e }
      | .ok tbl =>
        let mode := if first then Mode.replace else Mode.append
        let db' := load_t0_db tbl mode db
        let r := runCities env false db' rest
        { r with events := .loaded city state mode (reconcile tbl).rows :: r.events }

/-- The fixed city list of main.py. -/
def pipelineCities : List (String × String) :=
  [("San Antonio", "TX"), ("Houston", "TX"), ("Dallas", "TX")]

/-- `run_pipeline` from main.py, parametrized by the extraction environment,
the destination table's initial content, and the city list (main.py
instantiates the latter with `pipelineCities`). -/
def run_pipeline (env : Env) (db : Db) (cities : List (String × String)) : RunResult :=
  runCities env true db cities

/-- The load events of a run, in order. -/
def loadsOf : List Event → List (String × String × Mode × Db)
  | [] => []
  | .extractFail _ _ :: es => loadsOf es
  | .loaded c s m rows :: es => (c, s, m, rows) :: loadsOf es

/-- Whether an event concerns the given city. -/
def Event.city : Event → String
  | .extractFail c _ => c
  | .loaded c _ _ _ => c

/-- Python's `city.replace(" ", "")`: every space stripped. -/
def cityClean (c : String) : String :=
  ⟨c.data.filter (fun ch => ch ≠ ' ')⟩

/-- The storage key of the raw artifact (extract.py line 22, without the
directory and extension): the city's spacing is preserved. -/
def rawKey (city state : String) : String :=
  "properties_data_" ++ city ++ "_" ++ state

/-- The file name extract.py writes the raw payload to. -/
def extract_file_name (city state : String) : String :=
  "data/raw/" ++ rawKey city state ++ ".json"

/-- The storage key of the transformed artifact (transform2.py lines 32–33,
without the directory and extension): spaces are stripped from the city. -/
def transformedKey (city state : String) : String :=
  "properties_data_" ++ cityClean city ++ "_" ++ state

/-- The output path transform2.py writes the canonical CSV to. -/
def transform_output_path (city state : String) : String :=
  "data/transformed/" ++ transformedKey city state ++ ".csv"

/-! ### JSON serialization, as Python's `json` module performs it

The pipeline moves JSON arrays of flat objects whose fields are strings,
integers or null; the serializer and parser below cover exactly that
fragment (no escape sequences, no nested containers, no floats — where the
real data has richer values the parser simply returns `none`, so every
equation `pyLoads s = some p` proved below also holds of Python). -/

/-- The decimal digits of a natural number, most significant first
(structural recursion on a fuel bound, so that the kernel can evaluate
it; `natChars_unfold` recovers the natural recursion). -/
def natCharsAux : Nat → Nat → List Char
  | 0, _ => []
  | fuel + 1, n =>
    if n < 10 then [Char.ofNat (48 + n)]
    else natCharsAux fuel (n / 10) ++ [Char.ofNat (48 + n % 10)]

/-- The decimal digits of a natural number, most significant first. -/
def natChars (n : Nat) : List Char :=
  natCharsAux (n + 1) n

/-- The decimal rendering of an integer, as Python prints it. -/
def intChars (n : Int) : List Char :=
  if n < 0 then '-' :: natChars n.natAbs else natChars n.toNat

/-- One scalar value, serialized. -/
def printValueChars : Value → List Char
  | .vstr s => '"' :: s.data ++ ['"']
  | .vnum n => intChars n
  | .vnull => ['n', 'u', 'l', 'l']

/-- One `"key": value` member, serialized (`json.dump` with an `indent`
keeps the default `": "` key separator). -/
def printPairChars (kv : String × Value) : List Char :=
  '"' :: kv.1.data ++ ['"', ':', ' '] ++ printValueChars kv.2

/-- The member lines of a non-empty object at nesting depth 2 (indent 4),
joined by `",\n"` as `json.dump(..., indent=2)` does. -/
def recordBodyChars : Record → List Char
  | [] => []
  | [kv] => List.replicate 4 ' ' ++ printPairChars kv
  | kv :: rest => List.replicate 4 ' ' ++ printPairChars kv ++ [',', '\n'] ++ recordBodyChars rest

/-- One record as an array item (the item's own 2-space indent is emitted
by the array printer): `{}` when empty, otherwise braces on their own
lines with the closing brace at indent 2. -/
def recordChars : Record → List Char
  | [] => ['{', '}']
  | r => ['{', '\n'] ++ recordBodyChars r ++ ['\n', ' ', ' ', '}']

/-- The item lines of a non-empty array at nesting depth 1 (indent 2). -/
def payloadBodyChars : Payload → List Char
  | [] => []
  | [r] => [' ', ' '] ++ recordChars r
  | r :: rest => [' ', ' '] ++ recordChars r ++ [',', '\n'] ++ payloadBodyChars rest

/-- `json.dumps(payload, indent=2)` (equivalently the bytes
`json.dump(payload, f, indent=2)` writes): the exact pretty-printed form
extract.py persists. -/
def pyDumpsIndent2 (p : Payload) : String :=
  match p with
  | [] => "[]"
  | _ => ⟨'[' :: '\n' :: payloadBodyChars p ++ ['\n', ']']⟩

/-- JSON insignificant whitespace. -/
def isWsChar (c : Char) : Bool :=
  c = ' ' || c = '\n' || c = '\t' || c = '\r'

/-- Skip insignificant whitespace. -/
def skipWs : List Char → List Char
  | [] => []
  | c :: cs => if isWsChar c then skipWs cs else c :: cs

/-- The body of a string literal after the opening quote: the characters up
to the closing quote.  An escape (`\`) or an unterminated literal is a
parse failure (escapes are outside this fragment). -/
def parseStringBody : List Char → Option (List Char × List Char)
  | [] => none
  | c :: cs =>
    if c = '"' then some ([], cs)
    else if c = '\\' then none
    else (parseStringBody cs).map (fun r => (c :: r.1, r.2))

/-- A full string literal. -/
def parseStringLit : List Char → Option (String × List Char)
  | [] => none
  | c :: cs => if c = '"' then (parseStringBody cs).map (fun r => (⟨r.1⟩, r.2)) else none

/-- Decimal digit test. -/
def isDigitChar (c : Char) : Bool :=
  48 ≤ c.toNat && c.toNat ≤ 57

/-- Greedy digit run, accumulating the value. -/
def parseNatAux (acc : Nat) : List Char → Nat × List Char
  | [] => (acc, [])
  | c :: cs =>
    if isDigitChar c then parseNatAux (acc * 10 + (c.toNat - 48)) cs
    else (acc, c :: cs)

/-- A natural-number literal: at least one digit, consumed greedily. -/
def parseNat? : List Char → Option (Nat × List Char)
  | [] => none
  | c :: cs =>
    if isDigitChar c then some (parseNatAux (c.toNat - 48) cs)
    else none

/-- An integer literal: optional minus sign, at least one digit. -/
def parseInt (cs : List Char) : Option (Int × List Char) :=
  match cs with
  | [] => none
  | c :: cs1 =>
    if c = '-' then (parseNat? cs1).map (fun r => (-(r.1 : Int), r.2))
    else (parseNat? (c :: cs1)).map (fun r => ((r.1 : Int), r.2))

/-- One scalar value: string, `null`, or integer. -/
def parseValue (cs : List Char) : Option (Value × List Char) :=
  match cs with
  | [] => none
  | c :: cs1 =>
    if c = '"' then (parseStringBody cs1).map (fun r => (.vstr ⟨r.1⟩, r.2))
    else if c = 'n' then
      match cs1 with
      | u :: l1 :: l2 :: rest =>
        if u = 'u' ∧ l1 = 'l' ∧ l2 = 'l' then some (.vnull, rest) else none
      | _ => none
    else (parseInt (c :: cs1)).map (fun r => (.vnum r.1, r.2))

/-- One `"key": value` member. -/
def parseMember (cs : List Char) : Option ((String × Value) × List Char) :=
  match parseStringLit cs with
  | none => none
  | some (k, cs1) =>
    match skipWs cs1 with
    | [] => none
    | c :: cs2 =>
      if c = ':' then
        match parseValue (skipWs cs2) with
        | none => none
        | some (v, cs3) => some ((k, v), cs3)
      else none

/-- The members of a non-empty object, up to and including the closing
brace.  `fuel` bounds the number of members. -/
def parsePairs : Nat → List Char → Option (Record × List Char)
  | 0, _ => none
  | fuel + 1, cs =>
    match parseMember cs with
    | none => none
    | some (kv, cs1) =>
      match skipWs cs1 with
      | [] => none
      | c :: cs2 =>
        if c = ',' then
          match parsePairs fuel (skipWs cs2) with
          | some (r, rest) => some (kv :: r, rest)
          | none => none
        else if c = '}' then some ([kv], cs2)
        else none

/-- One object, braces included. -/
def parseRecord (fuel : Nat) (cs : List Char) : Option (Record × List Char) :=
  match cs with
  | [] => none
  | c :: cs1 =>
    if c = '{' then
      match skipWs cs1 with
      | [] => none
      | c2 :: cs2 => if c2 = '}' then some ([], cs2) else parsePairs fuel (c2 :: cs2)
    else none

/-- The items of a non-empty array, up to and including the closing
bracket.  `fuel` bounds the number of items. -/
def parseItems : Nat → List Char → Option (Payload × List Char)
  | 0, _ => none
  | fuel + 1, cs =>
    match parseRecord (fuel + 1) cs with
    | none => none
    | some (r, cs1) =>
      match skipWs cs1 with
      | [] => none
      | c :: cs2 =>
        if c = ',' then
          match parseItems fuel (skipWs cs2) with
          | some (p, rest) => some (r :: p, rest)
          | none => none
        else if c = ']' then some ([r], cs2)
        else none

/-- `json.loads`, restricted to this fragment: a top-level array of flat
objects, with nothing but whitespace after it. -/
def pyLoads (s : String) : Option Payload :=
  match skipWs s.data with
  | [] => none
  | c :: cs1 =>
    if c = '[' then
      match skipWs cs1 with
      | [] => none
      | c2 :: cs2 =>
        if c2 = ']' then (if (skipWs cs2).isEmpty then some [] else none)
        else
          match parseItems (s.data.length + 1) (c2 :: cs2) with
          | some (p, rest) => if (skipWs rest).isEmpty then some p else none
          | none => none
    else none

/-! ### The extractor (extract.py, and the legacy variant etl.py) -/

/-- An HTTP response as the extractor observes it: status code and body. -/
structure HttpResponse where
  status : Nat
  text : String
deriving DecidableEq, Repr

/-- Console lines the extractors can emit.  `statusSet` models etl.py's
`print({response.status_code} - {response.text})`: the two singleton sets'
difference, i.e. just the status — the body never survives it. -/
inductive LogEvent where
  | fetching (city state : String)
  | statusSet (status : Nat)
deriving DecidableEq, Repr

/-- Everything observable about one `extract_properties` call. -/
structure ExtractOutcome where
  log : List LogEvent
  written : Option (String × String)
  result : Option String
  raised : Bool
deriving DecidableEq, Repr

/-- `extract_properties` from extract.py (the module main.py imports).  On
status 200 the parsed body is re-serialized with `json.dump(..., indent=2)`
into the raw artifact and the file name is returned; a malformed body makes
`response.json()` raise.  On any other status the function has no `else`
branch at all: it logs nothing further, writes nothing, raises nothing, and
falls off the end returning `None`. -/
def extract_properties (resp : HttpResponse) (city state : String) : ExtractOutcome :=
  if resp.status = 200 then
    match pyLoads resp.text with
    | some payload =>
      { log := [.fetching city state]
      , written := some (extract_file_name city state, pyDumpsIndent2 payload)
      , result := some (extract_file_name city state)
      , raised := false }
    | none =>
      { log := [.fetching city state], written := none, result := none, raised := true }
  else
    { log := [.fetching city state], written := none, result := none, raised := false }

/-- `extract_properties` from etl.py (not the one main.py calls): on
non-200 it prints the status–text set difference and returns `None`; on 200
it returns the parsed data itself (no file is written). -/
def etl_extract_properties (resp : HttpResponse) (city state : String) :
    List LogEvent × Option Payload :=
  if resp.status = 200 then
    ([.fetching city state], pyLoads resp.text)
  else
    ([.fetching city state, .statusSet resp.status], none)

/-! ### Auxiliary notions used only to state and prove the claims -/

/-- The cell of a labeled row at column `c`: the value paired with the
first occurrence of the label. -/
def cellOf (cols : List String) (row : List Value) (c : String) : Option Value :=
  (cols.zip row).lookup c

/-- The values carried by every occurrence of label `s` in a labeled row. -/
def matchesOf (s : String) (cols : List String) (row : List Value) : List Value :=
  (cols.zip row).filterMap (fun p => if p.1 == s then some p.2 else none)

/-- A string this JSON fragment can carry verbatim between quotes. -/
def validStr (s : String) : Prop :=
  '"' ∉ s.data ∧ '\\' ∉ s.data

/-- Validity of a scalar value. -/
def validValue : Value → Prop
  | .vstr s => validStr s
  | _ => True

/-- Validity of a record: every key and value is representable. -/
def validRecord (r : Record) : Prop :=
  ∀ kv ∈ r, validStr kv.1 ∧ validValue kv.2

/-- Validity of a payload. -/
def validPayload (p : Payload) : Prop :=
  ∀ r ∈ p, validRecord r

/-- The member sequence of a non-empty object as the parser meets it after
the opening whitespace: members separated by `",\n    "`, closed by
`"\n  }"`, followed by `rest`. -/
def pairsBlob : Record → List Char → List Char
  | [], rest => rest
  | [kv], rest => printPairChars kv ++ '\n' :: ' ' :: ' ' :: '}' :: rest
  | kv :: r, rest => printPairChars kv ++ ',' :: '\n' :: (List.replicate 4 ' ' ++ pairsBlob r rest)

/-- The item sequence of a non-empty array as the parser meets it: records
separated by `",\n  "`, closed by `"\n]"`, followed by `rest`. -/
def itemsBlob : Payload → List Char → List Char
  | [], rest => rest
  | [r], rest => recordChars r ++ '\n' :: ']' :: rest
  | r :: p, rest => recordChars r ++ ',' :: '\n' :: ' ' :: ' ' :: itemsBlob p rest

/-- A fuel budget that dominates the member count of every record of the
payload along the item recursion. -/
def fuelBound (p : Payload) : Nat :=
  p.length + (p.map List.length).sum

/-- Does a character list start with something other than a digit?  (The
digit run of a number literal must end where the serializer put its last
digit for the parse to return the same number.) -/
def nonDigitStart : List Char → Prop
  | [] => True
  | c :: _ => isDigitChar c = false

/-- A record holding all 15 source-named fields (used to build runs whose
transforms succeed). -/
def fullRecord : Record :=
  transformColumns.map (fun c => (c, Value.vnull))

/-- A record holding every source-named field except `county` (used to
build the spec's "no `county` field in the raw payload" scenario). -/
def noCountyRecord : Record :=
  (transformColumns.filter (fun c => c ≠ "county")).map (fun c => (c, Value.vnull))

/-- The extraction environment of the spec's end-to-end example: San
Antonio's extraction yields 2 records, Houston's yields 3, and no record
carries a `county` field. -/
def envC1 : Env := fun city _ =>
  if city = "San Antonio" then some [noCountyRecord, noCountyRecord]
  else if city = "Houston" then some [noCountyRecord, noCountyRecord, noCountyRecord]
  else none

/-- An environment where San Antonio's extraction succeeds but its payload
is missing a referenced field, while Houston's extraction and transform
would both succeed. -/
def envC3 : Env := fun city _ =>
  if city = "San Antonio" then some [noCountyRecord]
  else if city = "Houston" then some [fullRecord]
  else none

/-- An environment where San Antonio's extraction fails and Houston's
succeeds with a transformable payload. -/
def envC2 : Env := fun city _ =>
  if city = "Houston" then some [fullRecord] else none

/-- An artifact carrying only an aliased zip-code column. -/
def aliasOnlyTable : Table :=
  Table.mk ["zipCode"] [[Value.vstr "77002"]]

/-- The canonical row `aliasOnlyTable` reconciles to: null everywhere
except `zip_code`. -/
def canonicalRow77002 : List Value :=
  [Value.vnull, Value.vnull, Value.vnull, Value.vnull, Value.vnull, Value.vstr "77002",
   Value.vnull, Value.vnull, Value.vnull, Value.vnull, Value.vnull, Value.vnull,
   Value.vnull, Value.vnull, Value.vnull]

/-- An artifact carrying both an alias (`zipCode`) and the canonical column
it renames to (`zip_code`): renaming makes the label `zip_code` ambiguous. -/
def dupAliasTable : Table :=
  Table.mk ["zipCode", "zip_code"] [[Value.vstr "1", Value.vstr "2"]]

/-- An artifact with one alias column and one unrecognized column. -/
def junkTable : Table :=
  Table.mk ["zipCode", "junk"] [[Value.vstr "1", Value.vstr "2"]]

/-- An artifact with an alias column, a canonical column and an extra
column, for exercising the loader's frame condition. -/
def frameTable : Table :=
  Table.mk ["zipCode", "id", "extra"] [[Value.vstr "7", Value.vnum 1, Value.vstr "x"]]

/-! ## Theorems -/

/-- C5: every transformed artifact the Transformer produces has exactly the
15 canonical column names, in canonical order, whatever the raw records'
field order was (the quantification over `p` covers every field order). -/
theorem transform_canonical_columns (p : Payload) (t : Table)
    (h : transform p = .ok t) : t.cols = STANDARD_COLS := by
  unfold transform at h
  by_cases hc : transformColumns.all (fun c => (normalizeCols p).contains c)
  · rw [if_pos hc] at h
    injection h with h
    subst h
    show List.map renameT transformColumns = STANDARD_COLS
    decide
  · rw [if_neg hc] at h
    exact absurd h (by simp)

/-- Witness for C5: a one-record payload carrying all 15 source fields
transforms successfully, and the theorem applies to it. -/
theorem transform_canonical_columns_witness :
    (Table.mk STANDARD_COLS [List.replicate 15 Value.vnull]).cols = STANDARD_COLS :=
  transform_canonical_columns [fullRecord]
    (Table.mk STANDARD_COLS [List.replicate 15 Value.vnull]) (by rfl)

/-- C9: the raw artifact is keyed `properties_data_{city}_{state}` with the
city's spacing preserved (inside `data/raw/…​.json`), the transformed
artifact is keyed `properties_data_{cityNoSpaces}_{state}` (inside
`data/transformed/…​.csv`), and for any city name containing a space the
two keys differ. -/
theorem artifact_keys (city state : String) :
    rawKey city state = "properties_data_" ++ city ++ "_" ++ state ∧
    transformedKey city state = "properties_data_" ++ cityClean city ++ "_" ++ state ∧
    extract_file_name city state = "data/raw/" ++ rawKey city state ++ ".json" ∧
    transform_output_path city state = "data/transformed/" ++ transformedKey city state ++ ".csv" ∧
    (' ' ∈ city.data → rawKey city state ≠ transformedKey city state) := by
  refine ⟨rfl, rfl, rfl, rfl, fun hsp heq => ?_⟩
  have hlen := congrArg String.length heq
  simp only [rawKey, transformedKey, String.length_append] at hlen
  have hlt : (cityClean city).length < city.length := by
    show (city.data.filter (fun ch => ch ≠ ' ')).length < city.data.length
    refine List.length_filter_lt_length_iff_exists.mpr ?_
    exact ⟨' ', hsp, by simp⟩
  omega

/-- Witness for C9: for San Antonio the raw key and the transformed key
disagree (`properties_data_San Antonio_TX` vs `properties_data_SanAntonio_TX`). -/
theorem artifact_keys_witness :
    rawKey "San Antonio" "TX" ≠ transformedKey "San Antonio" "TX" :=
  (artifact_keys "San Antonio" "TX").2.2.2.2 (by decide)

/-- Once the `first` flag is `false`, every load of the remaining run uses
append mode. -/
theorem runCities_false_append (cities : List (String × String)) (env : Env) :
    ∀ db, ∀ x ∈ loadsOf (runCities env false db cities).events, x.2.2.1 = Mode.append := by
  induction cities with
  | nil => intro db x hx; simp [runCities, loadsOf] at hx
  | cons cs rest ih =>
    intro db x hx
    obtain ⟨city, state⟩ := cs
    cases henv : env city state with
    | none =>
      simp only [runCities, henv, loadsOf] at hx
      exact ih db x hx
    | some payload =>
      cases ht : transform payload with
      | error e => simp [runCities, henv, ht, loadsOf] at hx
      | ok tbl =>
        simp only [runCities, henv, ht, loadsOf, List.mem_cons] at hx
        rcases hx with rfl | hx
        · rfl
        · exact ih _ x hx

/-- A run started with the `first` flag set produces either no load at all
or a replace-mode load followed only by append-mode loads. -/
theorem runCities_true_loads (cities : List (String × String)) (env : Env) :
    ∀ db, loadsOf (runCities env true db cities).events = [] ∨
      ∃ c s rows tail, loadsOf (runCities env true db cities).events =
        (c, s, Mode.replace, rows) :: tail ∧ ∀ x ∈ tail, x.2.2.1 = Mode.append := by
  induction cities with
  | nil => intro db; left; simp [runCities, loadsOf]
  | cons cs rest ih =>
    intro db
    obtain ⟨city, state⟩ := cs
    cases henv : env city state with
    | none =>
      simp only [runCities, henv, loadsOf]
      exact ih db
    | some payload =>
      cases ht : transform payload with
      | error e => left; simp [runCities, henv, ht, loadsOf]
      | ok tbl =>
        right
        refine ⟨city, state, (reconcile tbl).rows,
          loadsOf (runCities env false (load_t0_db tbl Mode.replace db) rest).events, ?_, ?_⟩
        · simp [runCities, henv, ht, loadsOf]
        · exact runCities_false_append rest env _

/-- C2: in any pipeline run, replace mode is used exactly for the first
city that reaches the load step (the first load event, if any, has replace
mode and all later load events have append mode), and in the scenario where
the first city's extraction fails while the second city's extraction and
transform succeed, the second city is the replace city. -/
theorem replace_for_first_loaded_city (env : Env) (db : Db) (cities : List (String × String)) :
    (∀ i (h : i < (loadsOf (run_pipeline env db cities).events).length),
        ((loadsOf (run_pipeline env db cities).events).get ⟨i, h⟩).2.2.1 =
          if i = 0 then Mode.replace else Mode.append) ∧
    (∀ c1 s1 c2 s2 rest payload tbl,
        cities = (c1, s1) :: (c2, s2) :: rest →
        env c1 s1 = none →
        env c2 s2 = some payload →
        transform payload = .ok tbl →
        ∃ tail, loadsOf (run_pipeline env db cities).events =
          (c2, s2, Mode.replace, (reconcile tbl).rows) :: tail ∧
          ∀ x ∈ tail, x.2.2.1 = Mode.append) := by
  constructor
  · intro i h
    rcases runCities_true_loads cities env db with hnil | ⟨c, s, rows, tail, heq, htail⟩
    · simp only [run_pipeline] at h ⊢
      rw [hnil] at h
      exact absurd h (by simp)
    · simp only [run_pipeline] at h ⊢
      rcases i with _ | j
      · have hget : (loadsOf (runCities env true db cities).events).get ⟨0, h⟩ =
            (c, s, Mode.replace, rows) := by
          simp [heq]
        rw [hget]
        simp
      · rw [if_neg (by simp : ¬ (j + 1 = 0))]
        have h' : j + 1 < ((c, s, Mode.replace, rows) :: tail).length := by rw [← heq]; exact h
        have hj : j < tail.length := by simpa using h'
        have hget : (loadsOf (runCities env true db cities).events).get ⟨j + 1, h⟩ =
            tail.get ⟨j, hj⟩ := by
          simp [heq]
        rw [hget]
        exact htail _ (List.get_mem tail j hj)
  · rintro c1 s1 c2 s2 rest payload tbl rfl h1 h2 ht
    refine ⟨loadsOf (runCities env false (load_t0_db tbl Mode.replace db) rest).events, ?_, ?_⟩
    · simp [run_pipeline, runCities, h1, h2, ht, loadsOf]
    · exact runCities_false_append rest env _

/-- Witness for C2: with San Antonio's extraction failing and Houston's
succeeding, Houston's batch is the replace batch. -/
theorem replace_for_first_loaded_city_witness :
    ∃ tail, loadsOf (run_pipeline envC2 [] [("San Antonio", "TX"), ("Houston", "TX")]).events =
      ("Houston", "TX", Mode.replace,
        (reconcile (Table.mk STANDARD_COLS [List.replicate 15 Value.vnull])).rows) :: tail ∧
      ∀ x ∈ tail, x.2.2.1 = Mode.append :=
  (replace_for_first_loaded_city envC2 [] _).2 "San Antonio" "TX" "Houston" "TX" []
    [fullRecord] (Table.mk STANDARD_COLS [List.replicate 15 Value.vnull])
    rfl (by decide) (by decide) (by rfl)

/-- Membership in the deduplication accumulator recursion. -/
theorem mem_dedupFirstAux (x : String) :
    ∀ (l seen : List String), x ∈ dedupFirstAux seen l ↔ (x ∈ l ∧ x ∉ seen) := by
  intro l
  induction l with
  | nil => intro seen; simp [dedupFirstAux]
  | cons c cs ih =>
    intro seen
    by_cases h : seen.contains c
    · have hc : c ∈ seen := by simpa using h
      rw [dedupFirstAux, if_pos h, ih]
      constructor
      · rintro ⟨hx, hns⟩; exact ⟨List.mem_cons_of_mem _ hx, hns⟩
      · rintro ⟨hx, hns⟩
        rcases List.mem_cons.mp hx with rfl | hx
        · exact absurd hc hns
        · exact ⟨hx, hns⟩
    · have hc : c ∉ seen := by simpa using h
      rw [dedupFirstAux, if_neg h]
      simp only [List.mem_cons, ih]
      constructor
      · rintro (rfl | ⟨hx, hns⟩)
        · exact ⟨Or.inl rfl, hc⟩
        · exact ⟨Or.inr hx, fun hs => hns (Or.inr hs)⟩
      · rintro ⟨rfl | hx, hns⟩
        · exact Or.inl rfl
        · by_cases hxc : x = c
          · exact Or.inl hxc
          · exact Or.inr ⟨hx, by simp [hxc, hns]⟩

/-- A name is a column of the flattened frame iff some record carries it. -/
theorem mem_normalizeCols (c : String) (p : Payload) :
    c ∈ normalizeCols p ↔ ∃ r ∈ p, c ∈ recordKeys r := by
  rw [normalizeCols, dedupFirst, mem_dedupFirstAux]
  simp [List.mem_flatMap]

/-- `df[columns]` raises when a referenced source field occurs in no
record of the payload. -/
theorem transform_error (p : Payload) (f : String)
    (hf : f ∈ transformColumns) (habs : ∀ r ∈ p, f ∉ recordKeys r) :
    transform p = .error "KeyError: missing column" := by
  rw [transform, if_neg]
  intro hall
  have hcont := List.all_eq_true.mp hall f hf
  have : f ∈ normalizeCols p := by simpa using hcont
  obtain ⟨r, hr, hk⟩ := (mem_normalizeCols f p).mp this
  exact habs r hr hk

/-- Amended C3: a referenced source field absent from one city's flattened
records makes `transform` raise for that city, and main.py's loop body has
no handler, so the run aborts right there: the error escapes the city
boundary, the destination table is left as it was, and no later city is
processed (no events at all are produced from this city on). -/
theorem transform_failure_aborts_run (env : Env) (first : Bool) (db : Db)
    (city state : String) (rest : List (String × String)) (payload : Payload) (f : String)
    (henv : env city state = some payload)
    (hf : f ∈ transformColumns)
    (habs : ∀ r ∈ payload, f ∉ recordKeys r) :
    runCities env first db ((city, state) :: rest) =
      { events := [], db := db, err := some "KeyError: missing column" } := by
  have ht := transform_error payload f hf habs
  simp [runCities, henv, ht]

/-- Witness for amended C3. -/
theorem transform_failure_aborts_run_witness :
    runCities envC3 true [] [("San Antonio", "TX"), ("Houston", "TX")] =
      { events := [], db := [], err := some "KeyError: missing column" } :=
  transform_failure_aborts_run envC3 true [] "San Antonio" "TX" [("Houston", "TX")]
    [noCountyRecord] "county" (by decide) (by decide) (by decide)

/-- Counterexample to C3 as stated: San Antonio's payload lacks a
referenced field, Houston's extraction and transform would both succeed,
yet the run ends with an uncaught error and Houston is never processed
(the event list is empty), so the failure is not recovered at the per-city
level. -/
theorem transform_failure_not_recovered_counterexample :
    (run_pipeline envC3 [] [("San Antonio", "TX"), ("Houston", "TX")]).err =
      some "KeyError: missing column" ∧
    (run_pipeline envC3 [] [("San Antonio", "TX"), ("Houston", "TX")]).events = [] ∧
    envC3 "Houston" "TX" = some [fullRecord] ∧
    (transform [fullRecord]).isOk = true := by
  decide

/-- Amended C1: on the spec's example input (San Antonio yields 2 records,
Houston 3, no record carries a `county` field) the run does not load 5
rows; it aborts inside San Antonio's transform with a missing-column error,
leaving the destination table unchanged and writing no batch at all. -/
theorem endToEnd_example_aborts (env : Env) (db : Db) (saP houP : Payload)
    (h1 : env "San Antonio" "TX" = some saP)
    (_h2 : env "Houston" "TX" = some houP)
    (_hlen1 : saP.length = 2) (_hlen2 : houP.length = 3)
    (hnc : ∀ r ∈ saP, "county" ∉ recordKeys r) :
    run_pipeline env db [("San Antonio", "TX"), ("Houston", "TX")] =
      { events := [], db := db, err := some "KeyError: missing column" } := by
  have ht := transform_error saP "county" (by decide) hnc
  simp [run_pipeline, runCities, h1, ht]

/-- Witness for amended C1. -/
theorem endToEnd_example_aborts_witness :
    run_pipeline envC1 [] [("San Antonio", "TX"), ("Houston", "TX")] =
      { events := [], db := [], err := some "KeyError: missing column" } :=
  endToEnd_example_aborts envC1 [] [noCountyRecord, noCountyRecord]
    [noCountyRecord, noCountyRecord, noCountyRecord] (by decide) (by decide) rfl rfl (by decide)

/-- Counterexample to C1 as stated: with the example environment (2 San
Antonio records, 3 Houston records, no `county` anywhere) the destination
table ends empty — not with 5 rows — and the run terminates with an
uncaught missing-column error instead of performing the replace and append
loads. -/
theorem endToEnd_example_counterexample :
    (run_pipeline envC1 [] [("San Antonio", "TX"), ("Houston", "TX")]).db = [] ∧
    ¬ ((run_pipeline envC1 [] [("San Antonio", "TX"), ("Houston", "TX")]).db.length = 5) ∧
    (run_pipeline envC1 [] [("San Antonio", "TX"), ("Houston", "TX")]).err =
      some "KeyError: missing column" ∧
    loadsOf (run_pipeline envC1 [] [("San Antonio", "TX"), ("Houston", "TX")]).events = [] ∧
    envC1 "San Antonio" "TX" = some [noCountyRecord, noCountyRecord] ∧
    envC1 "Houston" "TX" = some [noCountyRecord, noCountyRecord, noCountyRecord] ∧
    (∀ r ∈ [noCountyRecord, noCountyRecord, noCountyRecord], "county" ∉ recordKeys r) := by
  decide

/-- Unfolding `matchesOf` over a cons cell. -/
theorem matchesOf_cons (s c : String) (cs : List String) (v : Value) (vs : List Value) :
    matchesOf s (c :: cs) (v :: vs) =
      if c == s then v :: matchesOf s cs vs else matchesOf s cs vs := by
  simp only [matchesOf, List.zip_cons_cons, List.filterMap_cons]
  by_cases h : c == s
  · simp [h]
  · simp [h]

/-- Looking a label up in a zipped row returns the first of its matches. -/
theorem lookup_eq_head_matchesOf (c : String) :
    ∀ (cols : List String) (row : List Value),
      (cols.zip row).lookup c = (matchesOf c cols row).head? := by
  intro cols
  induction cols with
  | nil => intro row; simp [matchesOf]
  | cons c' cs ih =>
    intro row
    cases row with
    | nil => simp [matchesOf]
    | cons v vs =>
      rw [matchesOf_cons]
      by_cases h : c' = c
      · subst h
        simp [List.lookup]
      · have hb : ¬ ((c' == c) = true) := by simp [h]
        rw [if_neg hb]
        have hb2 : (c == c') = false := by
          simp only [beq_eq_false_iff_ne, ne_eq]
          exact fun hh => h hh.symm
        simp only [List.lookup, hb2]
        exact ih vs

/-- A label occurring nowhere has no matches. -/
theorem matchesOf_eq_nil (c : String) :
    ∀ (cols : List String) (row : List Value), c ∉ cols → matchesOf c cols row = [] := by
  intro cols
  induction cols with
  | nil => intro row _; simp [matchesOf]
  | cons c' cs ih =>
    intro row hc
    simp only [List.mem_cons, not_or] at hc
    cases row with
    | nil => simp [matchesOf]
    | cons v vs =>
      rw [matchesOf_cons, if_neg, ih vs hc.2]
      simp only [beq_iff_eq]
      exact fun hh => hc.1 hh.symm

/-- When every label matches, all cells come back. -/
theorem matchesOf_all (c : String) :
    ∀ (cols : List String) (row : List Value), (∀ x ∈ cols, x = c) →
      cols.length = row.length → matchesOf c cols row = row := by
  intro cols
  induction cols with
  | nil =>
    intro row _ hlen
    cases row with
    | nil => simp [matchesOf]
    | cons v vs => simp at hlen
  | cons c' cs ih =>
    intro row hall hlen
    cases row with
    | nil => simp at hlen
    | cons v vs =>
      rw [matchesOf_cons, if_pos (by simp [hall c' (List.mem_cons_self c' cs)]),
        ih vs (fun x hx => hall x (List.mem_cons_of_mem _ hx)) (by simpa using hlen)]

/-- There are as many matches as matching labels (rows aligned). -/
theorem length_matchesOf (c : String) :
    ∀ (cols : List String) (row : List Value), cols.length = row.length →
      (matchesOf c cols row).length = (cols.filter (fun x => x == c)).length := by
  intro cols
  induction cols with
  | nil => intro row _; simp [matchesOf]
  | cons c' cs ih =>
    intro row hlen
    cases row with
    | nil => simp at hlen
    | cons v vs =>
      rw [matchesOf_cons, List.filter_cons]
      by_cases h : c' == c
      · simp only [h, if_pos]
        simp [ih vs (by simpa using hlen)]
      · simp only [h]
        simp [ih vs (by simpa using hlen), h]

/-- Matches distribute over appending aligned pieces. -/
theorem matchesOf_append (c : String) (cols₁ cols₂ : List String) (row₁ row₂ : List Value)
    (h : cols₁.length = row₁.length) :
    matchesOf c (cols₁ ++ cols₂) (row₁ ++ row₂) =
      matchesOf c cols₁ row₁ ++ matchesOf c cols₂ row₂ := by
  simp [matchesOf, List.zip_append h, List.filterMap_append]

/-- Every match comes from the row. -/
theorem mem_of_mem_matchesOf (c : String) (cols : List String) (row : List Value)
    (v : Value) (hv : v ∈ matchesOf c cols row) : v ∈ row := by
  rw [matchesOf] at hv
  obtain ⟨p, hp, hpv⟩ := List.mem_filterMap.mp hv
  have : p.2 = v := by
    by_cases h : p.1 == c
    · simpa [h] using hpv
    · simp [h] at hpv
  exact this ▸ (List.of_mem_zip hp).2

/-- Label-based selection preserves the matches of every requested label:
the pieces produced for the other labels contribute nothing. -/
theorem matchesOf_select (c : String) :
    ∀ (ws : List String), c ∈ ws → ws.Nodup →
      ∀ (cols : List String) (row : List Value), cols.length = row.length →
        matchesOf c (ws.flatMap (fun s => cols.filter (fun x => x == s)))
          (ws.flatMap (fun s => matchesOf s cols row)) = matchesOf c cols row := by
  intro ws
  induction ws with
  | nil => intro h; exact absurd h (by simp)
  | cons s ws ih =>
    intro hc hnd cols row hlen
    have hnd1 : s ∉ ws := (List.nodup_cons.mp hnd).1
    have hnd2 : ws.Nodup := (List.nodup_cons.mp hnd).2
    rw [List.flatMap_cons, List.flatMap_cons,
      matchesOf_append c _ _ _ _ (length_matchesOf s cols row hlen).symm]
    by_cases hsc : c = s
    · subst hsc
      have h1 : matchesOf c (cols.filter (fun x => x == c)) (matchesOf c cols row) =
          matchesOf c cols row :=
        matchesOf_all c _ _
          (fun x hx => by simpa using (List.mem_filter.mp hx).2)
          (length_matchesOf c cols row hlen).symm
      have h2 : matchesOf c (ws.flatMap (fun s => cols.filter (fun x => x == s)))
          (ws.flatMap (fun s => matchesOf s cols row)) = [] := by
        refine matchesOf_eq_nil c _ _ ?_
        intro hmem
        obtain ⟨s', hs', hfil⟩ := List.mem_flatMap.mp hmem
        have : c = s' := by simpa using (List.mem_filter.mp hfil).2
        exact hnd1 (this ▸ hs')
      rw [h1, h2, List.append_nil]
    · have h1 : matchesOf c (cols.filter (fun x => x == s)) (matchesOf s cols row) = [] := by
        refine matchesOf_eq_nil c _ _ ?_
        intro hmem
        exact hsc (by simpa using (List.mem_filter.mp hmem).2)
      have hc' : c ∈ ws := by
        rcases List.mem_cons.mp hc with rfl | h
        · exact absurd rfl hsc
        · exact h
      rw [h1, List.nil_append, ih hc' hnd2 cols row hlen]

/-- Requesting each label of a duplicate-free labeled row once, in order,
returns the row itself. -/
theorem flatMap_matchesOf_self :
    ∀ (cols : List String), cols.Nodup →
      ∀ (row : List Value), cols.length = row.length →
        cols.flatMap (fun s => matchesOf s cols row) = row := by
  intro cols
  induction cols with
  | nil =>
    intro _ row hlen
    cases row with
    | nil => simp
    | cons v vs => simp at hlen
  | cons c cs ih =>
    intro hnd row hlen
    cases row with
    | nil => simp at hlen
    | cons v vs =>
      have hnd1 : c ∉ cs := (List.nodup_cons.mp hnd).1
      have hnd2 : cs.Nodup := (List.nodup_cons.mp hnd).2
      have hlen' : cs.length = vs.length := by simpa using hlen
      rw [List.flatMap_cons]
      have h1 : matchesOf c (c :: cs) (v :: vs) = [v] := by
        rw [matchesOf_cons, if_pos (by simp), matchesOf_eq_nil c cs vs hnd1]
      have h2 : cs.flatMap (fun s => matchesOf s (c :: cs) (v :: vs)) =
          cs.flatMap (fun s => matchesOf s cs vs) := by
        refine List.flatMap_congr ?_
        intro s hs
        rw [matchesOf_cons, if_neg]
        simp only [beq_iff_eq]
        exact fun hh => hnd1 (hh ▸ hs)
      rw [h1, h2, ih hnd2 vs hlen']
      rfl

/-- `df[STANDARD_COLS]` applied to a frame already labeled by
`STANDARD_COLS` returns each row unchanged. -/
theorem selectRow_canonical (row : List Value) (h : STANDARD_COLS.length = row.length) :
    selectRow STANDARD_COLS row = row :=
  flatMap_matchesOf_self STANDARD_COLS (by decide) row h

/-- C7: the loader's reconciliation pass is idempotent — applied to a table
already in canonical form it returns that table unchanged — and any
artifact whose reconciliation equals a canonical table is loaded exactly as
that canonical table would be, in either mode. -/
theorem loader_reconciliation_idempotent (rows : Db)
    (hal : ∀ r ∈ rows, r.length = STANDARD_COLS.length) :
    reconcile (Table.mk STANDARD_COLS rows) = Table.mk STANDARD_COLS rows ∧
    ∀ (t : Table) (mode : Mode) (db : Db),
      reconcile t = Table.mk STANDARD_COLS rows →
      load_t0_db t mode db = load_t0_db (Table.mk STANDARD_COLS rows) mode db := by
  have h1 : renameCols STANDARD_COLS = STANDARD_COLS := by decide
  have h2 : missingCols STANDARD_COLS = [] := by decide
  have h3 : fillCols STANDARD_COLS = STANDARD_COLS := by simp [fillCols, h2]
  have h4 : selectCols STANDARD_COLS = STANDARD_COLS := by decide
  have h5 : ∀ r : List Value, fillRow STANDARD_COLS r = r := by
    intro r; simp [fillRow, h2]
  have hmain : reconcile (Table.mk STANDARD_COLS rows) = Table.mk STANDARD_COLS rows := by
    simp only [reconcile, h1, h3, h4, h5]
    rw [Table.mk.injEq]
    refine ⟨rfl, ?_⟩
    have hmap : rows.map (fun r => selectRow STANDARD_COLS r) = rows.map id :=
      List.map_congr_left (fun r hr => (selectRow_canonical r (hal r hr).symm).trans rfl)
    rw [hmap, List.map_id]
  refine ⟨hmain, ?_⟩
  intro t mode db heq
  cases mode with
  | replace =>
    show (reconcile t).rows = (reconcile (Table.mk STANDARD_COLS rows)).rows
    rw [heq, hmain]
  | append =>
    show db ++ (reconcile t).rows = db ++ (reconcile (Table.mk STANDARD_COLS rows)).rows
    rw [heq, hmain]

/-- Witness for C7: the alias-only artifact reconciles to the same
canonical table as the already-canonical artifact, so loading either
appends the same rows. -/
theorem loader_reconciliation_idempotent_witness :
    load_t0_db aliasOnlyTable Mode.append [] =
      load_t0_db (Table.mk STANDARD_COLS [canonicalRow77002]) Mode.append [] :=
  (loader_reconciliation_idempotent [canonicalRow77002] (by decide)).2
    aliasOnlyTable Mode.append [] (by decide)

/-- Filling preserves freedom from duplicates. -/
theorem fillCols_nodup (cols : List String) (h : cols.Nodup) : (fillCols cols).Nodup := by
  rw [fillCols]
  refine List.Nodup.append h (List.Nodup.filter _ (by decide : STANDARD_COLS.Nodup)) ?_
  refine List.disjoint_left.mpr ?_
  intro a ha hma
  have hpred := (List.mem_filter.mp hma).2
  simp only [decide_not, Bool.not_eq_eq_eq_not, Bool.not_true, decide_eq_false_iff_not] at hpred
  exact absurd ha (by simpa using hpred)

/-- After filling, every canonical column is present. -/
theorem mem_fillCols (cols : List String) (s : String) (hs : s ∈ STANDARD_COLS) :
    s ∈ fillCols cols := by
  rw [fillCols]
  by_cases h : s ∈ cols
  · exact List.mem_append_left _ h
  · refine List.mem_append_right _ ?_
    simp [missingCols, List.mem_filter, hs, h]

/-- In a duplicate-free label list, filtering for a present label yields
exactly that one label. -/
theorem filter_beq_singleton (l : List String) (a : String) (hnd : l.Nodup) (ha : a ∈ l) :
    l.filter (fun x => x == a) = [a] := by
  have h1 := List.filter_beq l a
  have h2 : l.count a = 1 :=
    le_antisymm (List.nodup_iff_count_le_one.mp hnd a) (List.count_pos_iff.mpr ha)
  calc l.filter (fun x => x == a) = List.replicate (l.count a) a := h1
    _ = [a] := by rw [h2]; rfl

/-- A helper identity: flat-mapping singletons is the identity. -/
theorem flatMap_singleton_id (l : List String) : l.flatMap (fun s => [s]) = l := by
  induction l with
  | nil => rfl
  | cons a l ih => simp only [List.flatMap_cons, ih]; rfl

/-- Label selection over a duplicate-free frame containing every canonical
column produces exactly the canonical header. -/
theorem selectCols_eq_standard (cols : List String) (hnd : cols.Nodup)
    (hmem : ∀ s ∈ STANDARD_COLS, s ∈ cols) : selectCols cols = STANDARD_COLS := by
  rw [selectCols]
  rw [List.flatMap_congr (fun s hs => filter_beq_singleton cols s hnd (hmem s hs))]
  exact flatMap_singleton_id STANDARD_COLS

/-- Selection commutes with match extraction for any requested label. -/
theorem matchesOf_selectCols (c : String) (hc : c ∈ STANDARD_COLS)
    (cols : List String) (row : List Value) (hlen : cols.length = row.length) :
    matchesOf c (selectCols cols) (selectRow cols row) = matchesOf c cols row :=
  matchesOf_select c STANDARD_COLS hc (by decide) cols row hlen

/-- The first match against a constant row is that constant. -/
theorem head_matchesOf_replicate (c : String) (cols : List String) (n : Nat) (v : Value)
    (hc : c ∈ cols) (hn : cols.length = n) :
    (matchesOf c cols (List.replicate n v)).head? = some v := by
  have hlen : (matchesOf c cols (List.replicate n v)).length =
      (cols.filter (fun x => x == c)).length :=
    length_matchesOf c cols _ (by simp [hn])
  have hpos : 0 < (cols.filter (fun x => x == c)).length :=
    List.length_pos_of_mem (List.mem_filter.mpr ⟨hc, by simp⟩)
  cases hm : matchesOf c cols (List.replicate n v) with
  | nil => rw [hm] at hlen; simp at hlen; omega
  | cons x xs =>
    have hx : x ∈ matchesOf c cols (List.replicate n v) := by
      rw [hm]; exact List.mem_cons_self x xs
    have hxv : x = v :=
      List.eq_of_mem_replicate (mem_of_mem_matchesOf c cols _ x hx)
    simp [hxv]

/-- Amended C6: for every input artifact in which no two columns collide
after alias renaming (the renamed header is duplicate-free), the loaded
rows have exactly the 15 canonical columns in canonical order — aliases
renamed, absent canonical columns synthesized as all-null, extras dropped,
and the order fixed.  (Without that proviso the guarantee fails: see the
counterexample, where an alias and its canonical target coexist.) -/
theorem load_reconciliation_schema (t : Table)
    (hnd : (renameCols t.cols).Nodup)
    (hal : ∀ row ∈ t.rows, row.length = t.cols.length) :
    (reconcile t).cols = STANDARD_COLS ∧
    ∀ c ∈ STANDARD_COLS, c ∉ renameCols t.cols →
      List.Forall₂ (fun _rin rout => cellOf (reconcile t).cols rout c = some Value.vnull)
        t.rows (reconcile t).rows := by
  have hfnd : (fillCols (renameCols t.cols)).Nodup := fillCols_nodup _ hnd
  have hfm : ∀ s ∈ STANDARD_COLS, s ∈ fillCols (renameCols t.cols) :=
    fun s hs => mem_fillCols _ s hs
  have hcols : (reconcile t).cols = STANDARD_COLS := selectCols_eq_standard _ hfnd hfm
  refine ⟨hcols, ?_⟩
  intro c hcS hcn
  have hR : (reconcile t).rows = t.rows.map
      (fun r => selectRow (fillCols (renameCols t.cols)) (fillRow (renameCols t.cols) r)) := rfl
  rw [hR, List.forall₂_map_right_iff]
  refine List.forall₂_same.mpr ?_
  intro row hrow
  have hlc1 : (renameCols t.cols).length = row.length := by
    simp [renameCols, hal row hrow]
  have hlen2 : (fillCols (renameCols t.cols)).length =
      (fillRow (renameCols t.cols) row).length := by
    simp [fillCols, fillRow, hlc1]
  have hcm : c ∈ missingCols (renameCols t.cols) := by
    simp [missingCols, List.mem_filter, hcS, hcn]
  show cellOf (reconcile t).cols
      (selectRow (fillCols (renameCols t.cols)) (fillRow (renameCols t.cols) row)) c =
    some Value.vnull
  have e0 : cellOf (reconcile t).cols
      (selectRow (fillCols (renameCols t.cols)) (fillRow (renameCols t.cols) row)) c =
      (matchesOf c (selectCols (fillCols (renameCols t.cols)))
        (selectRow (fillCols (renameCols t.cols)) (fillRow (renameCols t.cols) row))).head? :=
    lookup_eq_head_matchesOf c _ _
  rw [e0, matchesOf_selectCols c hcS _ _ hlen2]
  have e1 : matchesOf c (fillCols (renameCols t.cols)) (fillRow (renameCols t.cols) row) =
      matchesOf c (renameCols t.cols) row ++
        matchesOf c (missingCols (renameCols t.cols))
          (List.replicate (missingCols (renameCols t.cols)).length Value.vnull) := by
    rw [fillCols, fillRow]
    exact matchesOf_append c _ _ _ _ hlc1
  rw [e1, matchesOf_eq_nil c _ row hcn, List.nil_append]
  exact head_matchesOf_replicate c _ _ Value.vnull hcm rfl

/-- Witness for amended C6: an artifact with one alias column and one junk
column reconciles to the canonical header, with the absent `county` column
all-null. -/
theorem load_reconciliation_schema_witness :
    (reconcile junkTable).cols = STANDARD_COLS ∧
    List.Forall₂
      (fun _rin rout => cellOf (reconcile junkTable).cols rout "county" = some Value.vnull)
      junkTable.rows (reconcile junkTable).rows :=
  ⟨(load_reconciliation_schema junkTable (by decide) (by decide)).1,
   (load_reconciliation_schema junkTable (by decide) (by decide)).2 "county"
     (by decide) (by decide)⟩

/-- Counterexample to C6 as stated: an input artifact carrying both
`zipCode` and `zip_code` (a perfectly valid CSV header) is reconciled to a
16-column frame — `df[STANDARD_COLS]` returns both columns now labeled
`zip_code` — so the written rows do not have exactly the canonical 15
columns. -/
theorem load_reconciliation_schema_counterexample :
    (reconcile dupAliasTable).cols ≠ STANDARD_COLS ∧
    (reconcile dupAliasTable).cols.length = 16 ∧
    (reconcile dupAliasTable).cols.count "zip_code" = 2 ∧
    (reconcile dupAliasTable).rows.all (fun r => r.length = 16) = true := by
  decide

/-- The renaming map leaves every canonical column name unchanged. -/
theorem renameL_std : ∀ c ∈ STANDARD_COLS, renameL c = c := by
  decide

/-- A label present in an aligned frame has a defined lookup. -/
theorem lookup_zip_isSome (c : String) :
    ∀ (cols : List String) (row : List Value), c ∈ cols → cols.length = row.length →
      ((cols.zip row).lookup c).isSome = true := by
  intro cols
  induction cols with
  | nil => intro row h _; simp at h
  | cons a as ih =>
    intro row hc hlen
    cases row with
    | nil => simp at hlen
    | cons v vs =>
      by_cases hac : c = a
      · simp [List.lookup, hac]
      · have hmem : c ∈ as := by
          rcases List.mem_cons.mp hc with h | h
          · exact absurd h hac
          · exact h
        have hb : (c == a) = false := by
          simp only [beq_eq_false_iff_ne, ne_eq]
          exact hac
        simp only [List.zip_cons_cons, List.lookup, hb]
        exact ih vs hmem (by simpa using hlen)

/-- Alias renaming does not disturb the lookup of a label that is a fixed
point of the renaming and that no other column renames onto. -/
theorem lookup_zip_rename (c : String) (hcc : renameL c = c) :
    ∀ (cols : List String) (row : List Value),
      (∀ a ∈ cols, renameL a = c → a = c) →
      ((renameCols cols).zip row).lookup c = (cols.zip row).lookup c := by
  intro cols
  induction cols with
  | nil => intro row _; rfl
  | cons a as ih =>
    intro row H
    cases row with
    | nil => rfl
    | cons v vs =>
      have H' : ∀ x ∈ as, renameL x = c → x = c :=
        fun x hx => H x (List.mem_cons_of_mem _ hx)
      by_cases hac : a = c
      · subst hac
        simp [renameCols, List.lookup, hcc]
      · have hra : ¬ (renameL a = c) := fun h => hac (H a (List.mem_cons_self a as) h)
        have hb1 : (c == renameL a) = false := by
          simp only [beq_eq_false_iff_ne, ne_eq]
          exact fun h => hra h.symm
        have hb2 : (c == a) = false := by
          simp only [beq_eq_false_iff_ne, ne_eq]
          exact fun h => hac h.symm
        simp only [renameCols, List.map_cons, List.zip_cons_cons, List.lookup, hb1, hb2]
        simpa only [renameCols] using ih vs H'

/-- C10: whenever no alias column renames onto a canonical name already
present (and the CSV header is duplicate-free, as `read_csv` guarantees),
the loader's reconciliation leaves the cell values of every canonical
column present in the input unchanged, row by row. -/
theorem loader_frame_preservation (t : Table)
    (_hnd : t.cols.Nodup)
    (hcol : ∀ a ∈ t.cols, renameL a ≠ a → renameL a ∉ t.cols)
    (hal : ∀ row ∈ t.rows, row.length = t.cols.length) :
    ∀ c ∈ t.cols, c ∈ STANDARD_COLS →
      List.Forall₂ (fun rin rout => cellOf (reconcile t).cols rout c = cellOf t.cols rin c)
        t.rows (reconcile t).rows := by
  intro c hc hcS
  have hcc : renameL c = c := renameL_std c hcS
  have H : ∀ a ∈ t.cols, renameL a = c → a = c := by
    intro a ha hra
    by_cases h : renameL a = a
    · rw [h] at hra; exact hra
    · exact absurd hc (hra ▸ hcol a ha h)
  have hc1 : c ∈ renameCols t.cols := by
    rw [renameCols]
    exact List.mem_map.mpr ⟨c, hc, hcc⟩
  have hR : (reconcile t).rows = t.rows.map
      (fun r => selectRow (fillCols (renameCols t.cols)) (fillRow (renameCols t.cols) r)) := rfl
  rw [hR, List.forall₂_map_right_iff]
  refine List.forall₂_same.mpr ?_
  intro row hrow
  have hlc1 : (renameCols t.cols).length = row.length := by
    simp [renameCols, hal row hrow]
  have hlen2 : (fillCols (renameCols t.cols)).length =
      (fillRow (renameCols t.cols) row).length := by
    simp [fillCols, fillRow, hlc1]
  show cellOf (reconcile t).cols
      (selectRow (fillCols (renameCols t.cols)) (fillRow (renameCols t.cols) row)) c =
    cellOf t.cols row c
  have e0 : cellOf (reconcile t).cols
      (selectRow (fillCols (renameCols t.cols)) (fillRow (renameCols t.cols) row)) c =
      (matchesOf c (selectCols (fillCols (renameCols t.cols)))
        (selectRow (fillCols (renameCols t.cols)) (fillRow (renameCols t.cols) row))).head? :=
    lookup_eq_head_matchesOf c _ _
  rw [e0, matchesOf_selectCols c hcS _ _ hlen2, ← lookup_eq_head_matchesOf c]
  rw [show fillCols (renameCols t.cols) =
        renameCols t.cols ++ missingCols (renameCols t.cols) from rfl,
      show fillRow (renameCols t.cols) row =
        row ++ List.replicate (missingCols (renameCols t.cols)).length Value.vnull from rfl,
      List.zip_append hlc1, List.lookup_append]
  have hsome : (((renameCols t.cols).zip row).lookup c).isSome = true :=
    lookup_zip_isSome c _ row hc1 hlc1
  rw [Option.or_of_isSome hsome, lookup_zip_rename c hcc t.cols row H]
  rfl

/-- Witness for C10: in an artifact with an alias column, the canonical
column `id` and an extra column, reconciliation preserves the `id` cell of
every row. -/
theorem loader_frame_preservation_witness :
    List.Forall₂
      (fun rin rout => cellOf (reconcile frameTable).cols rout "id" = cellOf frameTable.cols rin "id")
      frameTable.rows (reconcile frameTable).rows :=
  loader_frame_preservation frameTable (by decide) (by decide) (by decide) "id"
    (by decide) (by decide)

/-- Amended C8: on any non-200 response the pipeline's extractor
(extract.py, the module main.py imports) returns nothing, writes nothing and
raises nothing — but it also logs nothing about the failure (it has no
`else` branch; its only console line is the pre-request "fetching" message),
and the legacy etl.py variant prints only the status (its `print` evaluates
the set difference `{status} - {text}`, which drops the body).  The
orchestrator, given the absent result, skips transform and load for that
city only and continues with the remaining cities unchanged: no exception,
no retry. -/
theorem non200_skips_city (resp : HttpResponse) (city state : String)
    (h : resp.status ≠ 200) :
    (extract_properties resp city state).result = none ∧
    (extract_properties resp city state).written = none ∧
    (extract_properties resp city state).raised = false ∧
    (extract_properties resp city state).log = [LogEvent.fetching city state] ∧
    (∀ (env : Env) (first : Bool) (db : Db) (rest : List (String × String)),
      env city state = none →
      runCities env first db ((city, state) :: rest) =
        { runCities env first db rest with
            events := Event.extractFail city state :: (runCities env first db rest).events }) ∧
    (etl_extract_properties resp city state).1 =
      [LogEvent.fetching city state, LogEvent.statusSet resp.status] := by
  refine ⟨?_, ?_, ?_, ?_, ?_, ?_⟩
  · simp [extract_properties, h]
  · simp [extract_properties, h]
  · simp [extract_properties, h]
  · simp [extract_properties, h]
  · intro env first db rest henv
    simp [runCities, henv]
  · simp [etl_extract_properties, h]

/-- Witness for amended C8: a 403 response. -/
theorem non200_skips_city_witness :
    (extract_properties (HttpResponse.mk 403 "Forbidden") "Houston" "TX").result = none ∧
    (extract_properties (HttpResponse.mk 403 "Forbidden") "Houston" "TX").written = none ∧
    (extract_properties (HttpResponse.mk 403 "Forbidden") "Houston" "TX").raised = false ∧
    (extract_properties (HttpResponse.mk 403 "Forbidden") "Houston" "TX").log =
      [LogEvent.fetching "Houston" "TX"] ∧
    (∀ (env : Env) (first : Bool) (db : Db) (rest : List (String × String)),
      env "Houston" "TX" = none →
      runCities env first db (("Houston", "TX") :: rest) =
        { runCities env first db rest with
            events := Event.extractFail "Houston" "TX" ::
              (runCities env first db rest).events }) ∧
    (etl_extract_properties (HttpResponse.mk 403 "Forbidden") "Houston" "TX").1 =
      [LogEvent.fetching "Houston" "TX", LogEvent.statusSet 403] :=
  non200_skips_city (HttpResponse.mk 403 "Forbidden") "Houston" "TX" (by decide)

/-- Counterexample to C8 as stated: for a 403 response the pipeline's
extractor emits only the pre-request "fetching" line — no log entry carries
the status or the body (and even the etl.py variant's failure line carries
only the status) — so "logs the status and body" is false of the code. -/
theorem non200_logging_counterexample :
    (extract_properties (HttpResponse.mk 403 "Forbidden") "San Antonio" "TX").log =
      [LogEvent.fetching "San Antonio" "TX"] ∧
    (extract_properties (HttpResponse.mk 403 "Forbidden") "San Antonio" "TX").result = none ∧
    (etl_extract_properties (HttpResponse.mk 403 "Forbidden") "San Antonio" "TX").1 =
      [LogEvent.fetching "San Antonio" "TX", LogEvent.statusSet 403] := by
  decide

/-- The characters a parsed string body carries exclude the quote and the
backslash (the parser stops at the former and rejects the latter). -/
theorem parseStringBody_valid :
    ∀ (cs r rest : List Char), parseStringBody cs = some (r, rest) →
      '"' ∉ r ∧ '\\' ∉ r := by
  intro cs
  induction cs with
  | nil => intro r rest h; simp [parseStringBody] at h
  | cons c cs ih =>
    intro r rest h
    rw [parseStringBody] at h
    by_cases h1 : c = '"'
    · rw [if_pos h1] at h
      simp only [Option.some.injEq, Prod.mk.injEq] at h
      obtain ⟨h2, _⟩ := h
      subst h2
      simp
    · rw [if_neg h1] at h
      by_cases h2 : c = '\\'
      · rw [if_pos h2] at h
        exact absurd h (by simp)
      · rw [if_neg h2] at h
        cases hps : parseStringBody cs with
        | none => rw [hps] at h; simp at h
        | some pr =>
          obtain ⟨r', rest'⟩ := pr
          rw [hps] at h
          simp only [Option.map_some', Option.some.injEq, Prod.mk.injEq] at h
          obtain ⟨h3, _⟩ := h
          subst h3
          have hih := ih r' rest' hps
          constructor
          · simp only [List.mem_cons, not_or]
            exact ⟨fun hh => h1 hh.symm, hih.1⟩
          · simp only [List.mem_cons, not_or]
            exact ⟨fun hh => h2 hh.symm, hih.2⟩

/-- Parsed string literals are valid strings. -/
theorem parseStringLit_valid (cs : List Char) (k : String) (rest : List Char)
    (h : parseStringLit cs = some (k, rest)) : validStr k := by
  cases cs with
  | nil => simp [parseStringLit] at h
  | cons c cs1 =>
    rw [parseStringLit] at h
    by_cases h1 : c = '"'
    · rw [if_pos h1] at h
      cases hps : parseStringBody cs1 with
      | none => rw [hps] at h; simp at h
      | some pr =>
        obtain ⟨r', rest'⟩ := pr
        rw [hps] at h
        simp only [Option.map_some', Option.some.injEq, Prod.mk.injEq] at h
        obtain ⟨h2, _⟩ := h
        subst h2
        exact parseStringBody_valid cs1 r' rest' hps
    · rw [if_neg h1] at h
      exact absurd h (by simp)

/-- Parsed scalar values are valid. -/
theorem parseValue_valid (cs : List Char) (v : Value) (rest : List Char)
    (h : parseValue cs = some (v, rest)) : validValue v := by
  rw [parseValue.eq_def] at h
  split at h
  · exact absurd h (by simp)
  next c cs1 =>
    by_cases h1 : c = '"'
    · rw [if_pos h1] at h
      cases hps : parseStringBody cs1 with
      | none => rw [hps] at h; simp at h
      | some pr =>
        obtain ⟨r', rest'⟩ := pr
        rw [hps] at h
        simp only [Option.map_some', Option.some.injEq, Prod.mk.injEq] at h
        obtain ⟨h2, _⟩ := h
        subst h2
        exact parseStringBody_valid cs1 r' rest' hps
    · rw [if_neg h1] at h
      by_cases h2 : c = 'n'
      · rw [if_pos h2] at h
        split at h
        · split at h
          · simp only [Option.some.injEq, Prod.mk.injEq] at h
            obtain ⟨h3, _⟩ := h
            subst h3
            trivial
          · exact absurd h (by simp)
        · exact absurd h (by simp)
      · rw [if_neg h2] at h
        cases hpi : parseInt (c :: cs1) with
        | none => rw [hpi] at h; simp at h
        | some pr =>
          rw [hpi] at h
          simp only [Option.map_some', Option.some.injEq, Prod.mk.injEq] at h
          obtain ⟨h3, _⟩ := h
          subst h3
          trivial

/-- Parsed members are valid key-value pairs. -/
theorem parseMember_valid (cs : List Char) (kv : String × Value) (rest : List Char)
    (h : parseMember cs = some (kv, rest)) : validStr kv.1 ∧ validValue kv.2 := by
  rw [parseMember] at h
  split at h
  · exact absurd h (by simp)
  next k cs1 hk =>
    split at h
    · exact absurd h (by simp)
    next c cs2 _ =>
      split at h
      · split at h
        · exact absurd h (by simp)
        next v cs3 hv =>
          simp only [Option.some.injEq, Prod.mk.injEq] at h
          obtain ⟨h3, _⟩ := h
          subst h3
          exact ⟨parseStringLit_valid cs k cs1 hk, parseValue_valid _ v cs3 hv⟩
      · exact absurd h (by simp)

/-- Parsed member sequences are valid records. -/
theorem parsePairs_valid :
    ∀ (fuel : Nat) (cs : List Char) (r : Record) (rest : List Char),
      parsePairs fuel cs = some (r, rest) → validRecord r := by
  intro fuel
  induction fuel with
  | zero => intro cs r rest h; simp [parsePairs] at h
  | succ fuel ih =>
    intro cs r rest h
    rw [parsePairs] at h
    split at h
    · exact absurd h (by simp)
    next kv cs1 hkv =>
      split at h
      · exact absurd h (by simp)
      next c cs2 _ =>
        split at h
        · split at h
          next r' rest' hr' =>
            simp only [Option.some.injEq, Prod.mk.injEq] at h
            obtain ⟨h3, _⟩ := h
            subst h3
            intro x hx
            rcases List.mem_cons.mp hx with rfl | hx
            · exact parseMember_valid cs x cs1 hkv
            · exact ih _ r' rest' hr' x hx
          · exact absurd h (by simp)
        · split at h
          · simp only [Option.some.injEq, Prod.mk.injEq] at h
            obtain ⟨h3, _⟩ := h
            subst h3
            intro x hx
            rcases List.mem_cons.mp hx with rfl | hx
            · exact parseMember_valid cs x cs1 hkv
            · simp at hx
          · exact absurd h (by simp)

/-- Parsed objects are valid records. -/
theorem parseRecord_valid (fuel : Nat) (cs : List Char) (r : Record) (rest : List Char)
    (h : parseRecord fuel cs = some (r, rest)) : validRecord r := by
  rw [parseRecord.eq_def] at h
  split at h
  · exact absurd h (by simp)
  next c cs1 =>
    split at h
    · split at h
      · exact absurd h (by simp)
      next c2 cs2 _ =>
        split at h
        · simp only [Option.some.injEq, Prod.mk.injEq] at h
          obtain ⟨h3, _⟩ := h
          subst h3
          intro x hx
          simp at hx
        · exact parsePairs_valid fuel _ r rest h
    · exact absurd h (by simp)

/-- Parsed item sequences are valid payloads. -/
theorem parseItems_valid :
    ∀ (fuel : Nat) (cs : List Char) (p : Payload) (rest : List Char),
      parseItems fuel cs = some (p, rest) → validPayload p := by
  intro fuel
  induction fuel with
  | zero => intro cs p rest h; simp [parseItems] at h
  | succ fuel ih =>
    intro cs p rest h
    rw [parseItems] at h
    split at h
    · exact absurd h (by simp)
    next r cs1 hr =>
      split at h
      · exact absurd h (by simp)
      next c cs2 _ =>
        split at h
        · split at h
          next p' rest' hp' =>
            simp only [Option.some.injEq, Prod.mk.injEq] at h
            obtain ⟨h3, _⟩ := h
            subst h3
            intro x hx
            rcases List.mem_cons.mp hx with rfl | hx
            · exact parseRecord_valid _ cs x cs1 hr
            · exact ih _ p' rest' hp' x hx
          · exact absurd h (by simp)
        · split at h
          · simp only [Option.some.injEq, Prod.mk.injEq] at h
            obtain ⟨h3, _⟩ := h
            subst h3
            intro x hx
            rcases List.mem_cons.mp hx with rfl | hx
            · exact parseRecord_valid _ cs x cs1 hr
            · simp at hx
          · exact absurd h (by simp)

/-- Everything `pyLoads` returns is representable by the serializer. -/
theorem pyLoads_valid (s : String) (p : Payload) (h : pyLoads s = some p) :
    validPayload p := by
  rw [pyLoads.eq_def] at h
  split at h
  · exact absurd h (by simp)
  next c cs1 _ =>
    split at h
    · split at h
      · exact absurd h (by simp)
      next c2 cs2 _ =>
        split at h
        · split at h
          · simp only [Option.some.injEq] at h
            subst h
            intro x hx
            simp at hx
          · exact absurd h (by simp)
        · split at h
          next p' rest' hp' =>
            split at h
            · simp only [Option.some.injEq] at h
              subst h
              exact parseItems_valid _ _ p' rest' hp'
            · exact absurd h (by simp)
          · exact absurd h (by simp)
    · exact absurd h (by simp)

/-- Skipping whitespace stops at a non-whitespace head. -/
theorem skipWs_cons_not_ws (c : Char) (cs : List Char) (h : isWsChar c = false) :
    skipWs (c :: cs) = c :: cs := by
  simp [skipWs, h]

/-- The character of a decimal digit is a digit character. -/
theorem isDigit_ofNat_digit (k : Nat) (h : k < 10) :
    isDigitChar (Char.ofNat (48 + k)) = true := by
  interval_cases k <;> decide

/-- The value of a decimal digit's character. -/
theorem toNat_ofNat_digit (k : Nat) (h : k < 10) :
    (Char.ofNat (48 + k)).toNat - 48 = k := by
  interval_cases k <;> decide

/-- The digit printer ignores its fuel, given enough of it. -/
theorem natCharsAux_fuel :
    ∀ (f1 : Nat), ∀ (f2 n : Nat), n < f1 → n < f2 → natCharsAux f1 n = natCharsAux f2 n := by
  intro f1
  induction f1 with
  | zero => intro f2 n h1 _; omega
  | succ g1 ih =>
    intro f2 n h1 h2
    cases f2 with
    | zero => omega
    | succ g2 =>
      rw [natCharsAux, natCharsAux]
      by_cases h : n < 10
      · rw [if_pos h, if_pos h]
      · rw [if_neg h, if_neg h]
        have hdiv : n / 10 < n := Nat.div_lt_self (by omega) (by omega)
        rw [ih g2 (n / 10) (by omega) (by omega)]

/-- The natural unfolding of the digit printer. -/
theorem natChars_unfold (n : Nat) :
    natChars n = if n < 10 then [Char.ofNat (48 + n)]
                 else natChars (n / 10) ++ [Char.ofNat (48 + n % 10)] := by
  rw [natChars, natCharsAux]
  by_cases h : n < 10
  · rw [if_pos h, if_pos h]
  · rw [if_neg h, if_neg h]
    have hdiv : n / 10 < n := Nat.div_lt_self (by omega) (by omega)
    rw [natCharsAux_fuel n (n / 10 + 1) (n / 10) (by omega) (by omega)]
    rfl

/-- A number always prints at least one digit. -/
theorem natChars_ne_nil (n : Nat) : natChars n ≠ [] := by
  rw [natChars_unfold]
  split <;> simp

/-- Every printed character of a number is a digit. -/
theorem natChars_digits (n : Nat) : ∀ c ∈ natChars n, isDigitChar c = true := by
  induction n using Nat.strong_induction_on with
  | _ n ih =>
    rw [natChars_unfold]
    split
    next h =>
      intro c hc
      simp only [List.mem_singleton] at hc
      subst hc
      exact isDigit_ofNat_digit n h
    next h =>
      intro c hc
      rcases List.mem_append.mp hc with h1 | h1
      · exact ih (n / 10) (Nat.div_lt_self (by omega) (by omega)) c h1
      · simp only [List.mem_singleton] at h1
        subst h1
        exact isDigit_ofNat_digit (n % 10) (Nat.mod_lt n (by omega))

/-- A digit character is none of the structural characters. -/
theorem digit_char_ne (c : Char) (hc : isDigitChar c = true) :
    c ≠ '"' ∧ c ≠ 'n' ∧ c ≠ '-' ∧ isWsChar c = false := by
  refine ⟨fun h => ?_, fun h => ?_, fun h => ?_, ?_⟩
  · rw [h] at hc; exact absurd hc (by decide)
  · rw [h] at hc; exact absurd hc (by decide)
  · rw [h] at hc; exact absurd hc (by decide)
  · have hs1 : ¬ (c = ' ') := fun h => by rw [h] at hc; exact absurd hc (by decide)
    have hs2 : ¬ (c = '\n') := fun h => by rw [h] at hc; exact absurd hc (by decide)
    have hs3 : ¬ (c = '\t') := fun h => by rw [h] at hc; exact absurd hc (by decide)
    have hs4 : ¬ (c = '\r') := fun h => by rw [h] at hc; exact absurd hc (by decide)
    simp [isWsChar, hs1, hs2, hs3, hs4]

/-- The digit run stops at a non-digit. -/
theorem parseNatAux_stop (acc : Nat) (rest : List Char) (h : nonDigitStart rest) :
    parseNatAux acc rest = (acc, rest) := by
  cases rest with
  | nil => rfl
  | cons c cs =>
    have hc : isDigitChar c = false := h
    simp [parseNatAux, hc]

/-- Consuming a printed number accumulates its value. -/
theorem parseNatAux_print (n : Nat) :
    ∀ (acc : Nat) (rest : List Char),
      parseNatAux acc (natChars n ++ rest) =
        parseNatAux (acc * 10 ^ (natChars n).length + n) rest := by
  induction n using Nat.strong_induction_on with
  | _ n ih =>
    intro acc rest
    rw [natChars_unfold]
    split
    next h =>
      simp only [List.singleton_append, List.length_singleton]
      simp only [parseNatAux, isDigit_ofNat_digit n h, if_true]
      rw [toNat_ofNat_digit n h, pow_one]
    next h =>
      have hd10 : n % 10 < 10 := Nat.mod_lt n (by omega)
      rw [List.append_assoc, ih (n / 10) (Nat.div_lt_self (by omega) (by omega))]
      simp only [List.singleton_append]
      simp only [parseNatAux, isDigit_ofNat_digit (n % 10) hd10, if_true]
      rw [toNat_ofNat_digit (n % 10) hd10]
      congr 1
      have hlen : (natChars (n / 10) ++ [Char.ofNat (48 + n % 10)]).length =
          (natChars (n / 10)).length + 1 := by simp
      rw [hlen, pow_succ]
      have hmod : 10 * (n / 10) + n % 10 = n := by omega
      calc (acc * 10 ^ (natChars (n / 10)).length + n / 10) * 10 + n % 10
          = acc * (10 ^ (natChars (n / 10)).length * 10) + (10 * (n / 10) + n % 10) := by ring
        _ = acc * (10 ^ (natChars (n / 10)).length * 10) + n := by rw [hmod]

/-- A valid string body followed by a closing quote parses back exactly. -/
theorem parseStringBody_append :
    ∀ (l : List Char), '"' ∉ l → '\\' ∉ l → ∀ (rest : List Char),
      parseStringBody (l ++ '"' :: rest) = some (l, rest) := by
  intro l
  induction l with
  | nil => intro _ _ rest; simp [parseStringBody]
  | cons c cs ih =>
    intro hq hb rest
    simp only [List.mem_cons, not_or] at hq hb
    have h1 : ¬ (c = '"') := fun h => hq.1 h.symm
    have h2 : ¬ (c = '\\') := fun h => hb.1 h.symm
    rw [List.cons_append, parseStringBody, if_neg h1, if_neg h2, ih hq.2 hb.2 rest]
    rfl

/-- One-step unfolding of `parseInt` on a cons. -/
theorem parseInt_cons (c : Char) (cs : List Char) :
    parseInt (c :: cs) =
      if c = '-' then (parseNat? cs).map (fun r => (-(r.1 : Int), r.2))
      else (parseNat? (c :: cs)).map (fun r => ((r.1 : Int), r.2)) := rfl

/-- One-step unfolding of `parseValue` on a cons. -/
theorem parseValue_cons (c : Char) (cs1 : List Char) :
    parseValue (c :: cs1) =
      if c = '"' then (parseStringBody cs1).map (fun r => (Value.vstr ⟨r.1⟩, r.2))
      else if c = 'n' then
        (match cs1 with
         | u :: l1 :: l2 :: rest =>
           if u = 'u' ∧ l1 = 'l' ∧ l2 = 'l' then some (Value.vnull, rest) else none
         | _ => none)
      else (parseInt (c :: cs1)).map (fun r => (Value.vnum r.1, r.2)) := rfl

/-- Parsing a printed natural number returns it, when no digit follows. -/
theorem parseNat_print (n : Nat) (rest : List Char) (h : nonDigitStart rest) :
    parseNat? (natChars n ++ rest) = some (n, rest) := by
  obtain ⟨c, cs, hcc⟩ : ∃ c cs, natChars n = c :: cs := by
    cases hnc : natChars n with
    | nil => exact absurd hnc (natChars_ne_nil n)
    | cons c cs => exact ⟨c, cs, rfl⟩
  have hd : isDigitChar c = true := natChars_digits n c (by rw [hcc]; exact List.mem_cons_self c cs)
  have h0 := parseNatAux_print n 0 rest
  rw [hcc, List.cons_append] at h0
  have h1 : parseNatAux 0 (c :: (cs ++ rest)) = parseNatAux (c.toNat - 48) (cs ++ rest) := by
    simp [parseNatAux, hd]
  rw [h1] at h0
  rw [hcc, List.cons_append, parseNat?, if_pos hd, h0]
  simp only [Nat.zero_mul, Nat.zero_add]
  rw [parseNatAux_stop n rest h]

/-- Parsing a printed integer returns it, when no digit follows. -/
theorem parseInt_print (n : Int) (rest : List Char) (h : nonDigitStart rest) :
    parseInt (intChars n ++ rest) = some (n, rest) := by
  rw [intChars]
  by_cases hn : n < 0
  · rw [if_pos hn, List.cons_append, parseInt_cons, if_pos rfl,
      parseNat_print n.natAbs rest h]
    simp only [Option.map_some', Option.some.injEq, Prod.mk.injEq]
    exact ⟨by omega, trivial⟩
  · rw [if_neg hn]
    obtain ⟨c, cs, hcc⟩ : ∃ c cs, natChars n.toNat = c :: cs := by
      cases hnc : natChars n.toNat with
      | nil => exact absurd hnc (natChars_ne_nil n.toNat)
      | cons c cs => exact ⟨c, cs, rfl⟩
    have hd : isDigitChar c = true :=
      natChars_digits n.toNat c (by rw [hcc]; exact List.mem_cons_self c cs)
    have hne := digit_char_ne c hd
    rw [hcc, List.cons_append, parseInt_cons, if_neg hne.2.2.1,
      ← List.cons_append, ← hcc, parseNat_print n.toNat rest h]
    simp only [Option.map_some', Option.some.injEq, Prod.mk.injEq]
    exact ⟨by omega, trivial⟩

/-- Parsing a printed scalar value returns it, when no digit follows. -/
theorem parseValue_print (v : Value) (rest : List Char) (hv : validValue v)
    (h : nonDigitStart rest) :
    parseValue (printValueChars v ++ rest) = some (v, rest) := by
  cases v with
  | vstr s =>
    have hb := parseStringBody_append s.data hv.1 hv.2 rest
    rw [printValueChars, parseValue.eq_def]
    simp only [List.cons_append, List.append_assoc, List.singleton_append, List.nil_append,
      reduceIte]
    rw [hb]
    rfl
  | vnum n =>
    show parseValue (intChars n ++ rest) = some (Value.vnum n, rest)
    by_cases hn : n < 0
    · have hcc : intChars n = '-' :: natChars n.natAbs := by rw [intChars, if_pos hn]
      rw [hcc, List.cons_append, parseValue_cons,
        if_neg (by decide : ¬ (('-' : Char) = '"')), if_neg (by decide : ¬ (('-' : Char) = 'n')),
        ← List.cons_append, ← hcc, parseInt_print n rest h]
      rfl
    · have hcc : intChars n = natChars n.toNat := by rw [intChars, if_neg hn]
      obtain ⟨c, cs, hc2⟩ : ∃ c cs, natChars n.toNat = c :: cs := by
        cases hnc : natChars n.toNat with
        | nil => exact absurd hnc (natChars_ne_nil n.toNat)
        | cons c cs => exact ⟨c, cs, rfl⟩
      have hd : isDigitChar c = true :=
        natChars_digits n.toNat c (by rw [hc2]; exact List.mem_cons_self c cs)
      have hne := digit_char_ne c hd
      rw [hcc, hc2, List.cons_append, parseValue_cons, if_neg hne.1, if_neg hne.2.1,
        ← List.cons_append, ← hc2, ← hcc, parseInt_print n rest h]
      rfl
  | vnull =>
    rw [printValueChars, parseValue.eq_def]
    simp [reduceIte]

/-- One-step unfolding of `parseStringLit` on a cons. -/
theorem parseStringLit_cons (c : Char) (cs : List Char) :
    parseStringLit (c :: cs) =
      if c = '"' then (parseStringBody cs).map (fun r => (⟨r.1⟩, r.2)) else none := rfl

/-- Whitespace heads are consumed. -/
theorem skipWs_ws (c : Char) (cs : List Char) (h : isWsChar c = true) :
    skipWs (c :: cs) = skipWs cs := by
  simp [skipWs, h]

/-- A printed string literal parses back to the same string. -/
theorem parseStringLit_print (k : String) (hk : validStr k) (rest : List Char) :
    parseStringLit ('"' :: k.data ++ '"' :: rest) = some (k, rest) := by
  rw [List.cons_append, parseStringLit_cons, if_pos rfl,
    parseStringBody_append k.data hk.1 hk.2 rest]
  rfl

/-- A printed value never starts with whitespace. -/
theorem skipWs_printValue (v : Value) (rest : List Char) :
    skipWs (printValueChars v ++ rest) = printValueChars v ++ rest := by
  cases v with
  | vstr s =>
    rw [printValueChars]
    simp only [List.cons_append]
    rw [skipWs_cons_not_ws '"' _ (by decide)]
  | vnull =>
    rw [printValueChars]
    simp only [List.cons_append]
    rw [skipWs_cons_not_ws 'n' _ (by decide)]
  | vnum n =>
    rw [printValueChars]
    by_cases hn : n < 0
    · rw [intChars, if_pos hn]
      simp only [List.cons_append]
      rw [skipWs_cons_not_ws '-' _ (by decide)]
    · rw [intChars, if_neg hn]
      obtain ⟨c, cs, hcc⟩ : ∃ c cs, natChars n.toNat = c :: cs := by
        cases hnc : natChars n.toNat with
        | nil => exact absurd hnc (natChars_ne_nil n.toNat)
        | cons c cs => exact ⟨c, cs, rfl⟩
      have hd : isDigitChar c = true :=
        natChars_digits n.toNat c (by rw [hcc]; exact List.mem_cons_self c cs)
      rw [hcc]
      simp only [List.cons_append]
      rw [skipWs_cons_not_ws c _ (digit_char_ne c hd).2.2.2]

/-- A printed member parses back to the same key-value pair. -/
theorem parseMember_print (k : String) (v : Value) (rest : List Char)
    (hk : validStr k) (hv : validValue v) (h : nonDigitStart rest) :
    parseMember (printPairChars (k, v) ++ rest) = some ((k, v), rest) := by
  have hshape : printPairChars (k, v) ++ rest =
      '"' :: k.data ++ '"' :: (':' :: ' ' :: (printValueChars v ++ rest)) := by
    rw [printPairChars]
    simp [List.append_assoc]
  rw [hshape, parseMember, parseStringLit_print k hk]
  simp only []
  rw [skipWs_cons_not_ws ':' _ (by decide)]
  simp only [reduceIte]
  rw [skipWs_ws ' ' _ (by decide), skipWs_printValue, parseValue_print v rest hv h]

/-- A non-empty member sequence starts with a quote. -/
theorem pairsBlob_head (r : Record) (hr : r ≠ []) (rest : List Char) :
    ∃ cs', pairsBlob r rest = '"' :: cs' := by
  cases r with
  | nil => exact absurd rfl hr
  | cons kv r' =>
    cases r' with
    | nil =>
      have he : pairsBlob [kv] rest =
          printPairChars kv ++ '\n' :: ' ' :: ' ' :: '}' :: rest := rfl
      rw [he, printPairChars, List.cons_append, List.cons_append]
      exact ⟨_, rfl⟩
    | cons kv2 r'' =>
      have he : pairsBlob (kv :: kv2 :: r'') rest =
          printPairChars kv ++ ',' :: '\n' ::
            (List.replicate 4 ' ' ++ pairsBlob (kv2 :: r'') rest) := rfl
      rw [he, printPairChars, List.cons_append, List.cons_append]
      exact ⟨_, rfl⟩

/-- A non-empty member sequence starts with no whitespace. -/
theorem skipWs_pairsBlob (r : Record) (hr : r ≠ []) (rest : List Char) :
    skipWs (pairsBlob r rest) = pairsBlob r rest := by
  obtain ⟨cs', he⟩ := pairsBlob_head r hr rest
  rw [he, skipWs_cons_not_ws '"' _ (by decide)]

/-- A printed member sequence parses back to the same record. -/
theorem parsePairs_print :
    ∀ (r : Record) (fuel : Nat) (rest : List Char), validRecord r → r ≠ [] →
      r.length ≤ fuel → parsePairs fuel (pairsBlob r rest) = some (r, rest) := by
  intro r
  induction r with
  | nil => intro fuel rest _ hne _; exact absurd rfl hne
  | cons kv r' ih =>
    intro fuel rest hv _ hlen
    obtain ⟨k, v⟩ := kv
    have hkv := hv (k, v) (List.mem_cons_self _ _)
    cases fuel with
    | zero => simp at hlen
    | succ fuel =>
      cases r' with
      | nil =>
        have he : pairsBlob [(k, v)] rest =
            printPairChars (k, v) ++ '\n' :: ' ' :: ' ' :: '}' :: rest := rfl
        rw [he, parsePairs,
          parseMember_print k v ('\n' :: ' ' :: ' ' :: '}' :: rest) hkv.1 hkv.2 (by rfl)]
        simp only []
        rw [skipWs_ws '\n' _ (by decide), skipWs_ws ' ' _ (by decide),
          skipWs_ws ' ' _ (by decide), skipWs_cons_not_ws '}' _ (by decide)]
        simp only []
        rw [if_neg (by decide : ¬ (('}' : Char) = ','))]
        simp only [if_true]
      | cons kv2 r'' =>
        have he : pairsBlob ((k, v) :: kv2 :: r'') rest =
            printPairChars (k, v) ++ ',' :: '\n' ::
              (List.replicate 4 ' ' ++ pairsBlob (kv2 :: r'') rest) := rfl
        have hrep : List.replicate 4 ' ' = [' ', ' ', ' ', ' '] := rfl
        rw [he, parsePairs,
          parseMember_print k v
            (',' :: '\n' :: (List.replicate 4 ' ' ++ pairsBlob (kv2 :: r'') rest))
            hkv.1 hkv.2 (by rfl)]
        simp only []
        rw [skipWs_cons_not_ws ',' _ (by decide)]
        simp only []
        simp only [if_true]
        rw [hrep]
        simp only [List.cons_append, List.nil_append]
        rw [skipWs_ws '\n' _ (by decide), skipWs_ws ' ' _ (by decide),
          skipWs_ws ' ' _ (by decide), skipWs_ws ' ' _ (by decide),
          skipWs_ws ' ' _ (by decide), skipWs_pairsBlob (kv2 :: r'') (by simp) rest]
        rw [ih fuel rest (fun x hx => hv x (List.mem_cons_of_mem _ hx)) (by simp)
          (by simp only [List.length_cons] at hlen ⊢; omega)]

/-- The printed body of a non-empty record, plus the closing glue, is the
member sequence the parser meets. -/
theorem recordBody_blob :
    ∀ (r : Record), r ≠ [] → ∀ (rest : List Char),
      recordBodyChars r ++ '\n' :: ' ' :: ' ' :: '}' :: rest =
        List.replicate 4 ' ' ++ pairsBlob r rest := by
  intro r
  induction r with
  | nil => intro h; exact absurd rfl h
  | cons kv r' ih =>
    intro _ rest
    cases r' with
    | nil =>
      have h1 : recordBodyChars [kv] = List.replicate 4 ' ' ++ printPairChars kv := rfl
      have h2 : pairsBlob [kv] rest =
          printPairChars kv ++ '\n' :: ' ' :: ' ' :: '}' :: rest := rfl
      rw [h1, h2, List.append_assoc]
    | cons kv2 r'' =>
      have h1 : recordBodyChars (kv :: kv2 :: r'') =
          List.replicate 4 ' ' ++ printPairChars kv ++ [',', '\n'] ++
            recordBodyChars (kv2 :: r'') := rfl
      have h2 : pairsBlob (kv :: kv2 :: r'') rest =
          printPairChars kv ++ ',' :: '\n' ::
            (List.replicate 4 ' ' ++ pairsBlob (kv2 :: r'') rest) := rfl
      rw [h1, h2, ← ih (by simp) rest]
      simp [List.append_assoc]

/-- A printed non-empty record, followed by anything, in parser-ready form. -/
theorem recordChars_blob (r : Record) (hr : r ≠ []) (rest : List Char) :
    recordChars r ++ rest = '{' :: '\n' :: (List.replicate 4 ' ' ++ pairsBlob r rest) := by
  cases r with
  | nil => exact absurd rfl hr
  | cons kv r' =>
    have h1 : recordChars (kv :: r') =
        '{' :: '\n' :: recordBodyChars (kv :: r') ++ ['\n', ' ', ' ', '}'] := rfl
    rw [h1, ← recordBody_blob (kv :: r') (by simp) rest]
    simp [List.append_assoc]

/-- A printed object parses back to the same record. -/
theorem parseRecord_print (r : Record) (fuel : Nat) (rest : List Char)
    (hr : validRecord r) (hfuel : r.length ≤ fuel) :
    parseRecord fuel (recordChars r ++ rest) = some (r, rest) := by
  cases r with
  | nil =>
    have h1 : recordChars ([] : Record) ++ rest = '{' :: '}' :: rest := rfl
    rw [h1, parseRecord.eq_def]
    simp only []
    simp only [if_true]
    rw [skipWs_cons_not_ws '}' _ (by decide)]
    simp only []
    simp only [if_true]
  | cons kv r' =>
    rw [recordChars_blob (kv :: r') (by simp) rest, parseRecord.eq_def]
    simp only []
    simp only [if_true]
    rw [skipWs_ws '\n' _ (by decide)]
    have hrep : List.replicate 4 ' ' = [' ', ' ', ' ', ' '] := rfl
    rw [hrep]
    simp only [List.cons_append, List.nil_append]
    rw [skipWs_ws ' ' _ (by decide), skipWs_ws ' ' _ (by decide), skipWs_ws ' ' _ (by decide),
      skipWs_ws ' ' _ (by decide), skipWs_pairsBlob (kv :: r') (by simp) rest]
    obtain ⟨cs', he⟩ := pairsBlob_head (kv :: r') (by simp) rest
    rw [he]
    simp only []
    rw [if_neg (by decide : ¬ (('"' : Char) = '}')), ← he,
      parsePairs_print (kv :: r') fuel rest hr (by simp) hfuel]

/-- Every printed record starts with an opening brace. -/
theorem recordChars_head (r : Record) : ∃ cs', recordChars r = '{' :: cs' := by
  cases r with
  | nil => exact ⟨['}'], rfl⟩
  | cons kv r' => exact ⟨_, rfl⟩

/-- A non-empty item sequence starts with an opening brace. -/
theorem itemsBlob_head (p : Payload) (hp : p ≠ []) (rest : List Char) :
    ∃ cs', itemsBlob p rest = '{' :: cs' := by
  cases p with
  | nil => exact absurd rfl hp
  | cons r p' =>
    obtain ⟨cs0, hc⟩ := recordChars_head r
    cases p' with
    | nil =>
      have he : itemsBlob [r] rest = recordChars r ++ '\n' :: ']' :: rest := rfl
      rw [he, hc]
      simp only [List.cons_append]
      exact ⟨_, rfl⟩
    | cons r2 p'' =>
      have he : itemsBlob (r :: r2 :: p'') rest =
          recordChars r ++ ',' :: '\n' :: ' ' :: ' ' :: itemsBlob (r2 :: p'') rest := rfl
      rw [he, hc]
      simp only [List.cons_append]
      exact ⟨_, rfl⟩

/-- A non-empty item sequence starts with no whitespace. -/
theorem skipWs_itemsBlob (p : Payload) (hp : p ≠ []) (rest : List Char) :
    skipWs (itemsBlob p rest) = itemsBlob p rest := by
  obtain ⟨cs', he⟩ := itemsBlob_head p hp rest
  rw [he, skipWs_cons_not_ws '{' _ (by decide)]

/-- A printed item sequence parses back to the same payload. -/
theorem parseItems_print :
    ∀ (p : Payload) (fuel : Nat) (rest : List Char), validPayload p → p ≠ [] →
      fuelBound p ≤ fuel → parseItems fuel (itemsBlob p rest) = some (p, rest) := by
  intro p
  induction p with
  | nil => intro fuel rest _ h _; exact absurd rfl h
  | cons r p' ih =>
    intro fuel rest hv _ hfb
    have hvr : validRecord r := hv r (List.mem_cons_self _ _)
    cases fuel with
    | zero =>
      exfalso
      simp [fuelBound] at hfb
    | succ fuel =>
      have hrlen : r.length ≤ fuel + 1 := by
        simp only [fuelBound, List.length_cons, List.map_cons, List.sum_cons] at hfb
        omega
      cases p' with
      | nil =>
        have he : itemsBlob [r] rest = recordChars r ++ '\n' :: ']' :: rest := rfl
        rw [he, parseItems, parseRecord_print r (fuel + 1) ('\n' :: ']' :: rest) hvr hrlen]
        simp only []
        rw [skipWs_ws '\n' _ (by decide), skipWs_cons_not_ws ']' _ (by decide)]
        simp only []
        rw [if_neg (by decide : ¬ ((']' : Char) = ','))]
        simp only [if_true]
      | cons r2 p'' =>
        have he : itemsBlob (r :: r2 :: p'') rest =
            recordChars r ++ ',' :: '\n' :: ' ' :: ' ' :: itemsBlob (r2 :: p'') rest := rfl
        rw [he, parseItems,
          parseRecord_print r (fuel + 1)
            (',' :: '\n' :: ' ' :: ' ' :: itemsBlob (r2 :: p'') rest) hvr hrlen]
        simp only []
        rw [skipWs_cons_not_ws ',' _ (by decide)]
        simp only [if_true]
        rw [skipWs_ws '\n' _ (by decide), skipWs_ws ' ' _ (by decide),
          skipWs_ws ' ' _ (by decide), skipWs_itemsBlob (r2 :: p'') (by simp) rest]
        rw [ih fuel rest (fun x hx => hv x (List.mem_cons_of_mem _ hx)) (by simp)
          (by simp only [fuelBound, List.length_cons, List.map_cons, List.sum_cons] at hfb ⊢
              omega)]

/-- A record prints at least one character per member. -/
theorem length_recordBody (r : Record) : r.length ≤ (recordBodyChars r).length := by
  induction r with
  | nil => simp [recordBodyChars]
  | cons kv r' ih =>
    cases r' with
    | nil =>
      have h1 : recordBodyChars [kv] = List.replicate 4 ' ' ++ printPairChars kv := rfl
      rw [h1]
      simp only [List.length_cons, List.length_append, List.length_replicate, List.length_nil]
      omega
    | cons kv2 r'' =>
      have h1 : recordBodyChars (kv :: kv2 :: r'') =
          List.replicate 4 ' ' ++ printPairChars kv ++ [',', '\n'] ++
            recordBodyChars (kv2 :: r'') := rfl
      rw [h1]
      simp only [List.length_cons, List.length_append, List.length_replicate] at ih ⊢
      omega

/-- A record prints at least one character per member, braces included. -/
theorem length_recordChars (r : Record) : r.length ≤ (recordChars r).length := by
  cases r with
  | nil => simp [recordChars]
  | cons kv r' =>
    have h1 : recordChars (kv :: r') =
        '{' :: '\n' :: recordBodyChars (kv :: r') ++ ['\n', ' ', ' ', '}'] := rfl
    have h2 := length_recordBody (kv :: r')
    rw [h1]
    simp only [List.length_cons, List.length_append] at h2 ⊢
    omega

/-- The fuel bound of a payload is covered by its printed length. -/
theorem fuelBound_le_itemsBlob :
    ∀ (p : Payload) (rest : List Char), fuelBound p ≤ (itemsBlob p rest).length := by
  intro p
  induction p with
  | nil => intro rest; simp [fuelBound, itemsBlob]
  | cons r p' ih =>
    intro rest
    cases p' with
    | nil =>
      have he : itemsBlob [r] rest = recordChars r ++ '\n' :: ']' :: rest := rfl
      have h1 := length_recordChars r
      rw [he]
      simp only [fuelBound, List.length_cons, List.map_cons, List.sum_cons, List.map_nil,
        List.sum_nil, List.length_append, List.length_nil]
      omega
    | cons r2 p'' =>
      have he : itemsBlob (r :: r2 :: p'') rest =
          recordChars r ++ ',' :: '\n' :: ' ' :: ' ' :: itemsBlob (r2 :: p'') rest := rfl
      have h1 := length_recordChars r
      have h2 := ih rest
      rw [he]
      simp only [fuelBound, List.length_cons, List.map_cons, List.sum_cons,
        List.length_append] at h2 ⊢
      omega

/-- The printed body of a non-empty array, plus the closing glue, is the
item sequence the parser meets, prefixed by the first item's indent. -/
theorem payloadBody_blob :
    ∀ (p : Payload), p ≠ [] →
      payloadBodyChars p ++ ['\n', ']'] = ' ' :: ' ' :: itemsBlob p [] := by
  intro p
  induction p with
  | nil => intro h; exact absurd rfl h
  | cons r p' ih =>
    intro _
    cases p' with
    | nil =>
      have h1 : payloadBodyChars [r] = [' ', ' '] ++ recordChars r := rfl
      have h2 : itemsBlob [r] [] = recordChars r ++ '\n' :: ']' :: [] := rfl
      rw [h1, h2]
      simp [List.append_assoc]
    | cons r2 p'' =>
      have h1 : payloadBodyChars (r :: r2 :: p'') =
          [' ', ' '] ++ recordChars r ++ [',', '\n'] ++ payloadBodyChars (r2 :: p'') := rfl
      have h2 : itemsBlob (r :: r2 :: p'') [] =
          recordChars r ++ ',' :: '\n' :: ' ' :: ' ' :: itemsBlob (r2 :: p'') [] := rfl
      rw [h1, h2, ← ih (by simp)]
      simp [List.append_assoc]

/-- The serializer-parser roundtrip: every valid payload parses back from
its indent-2 serialization. -/
theorem pyLoads_print (p : Payload) (hp : validPayload p) :
    pyLoads (pyDumpsIndent2 p) = some p := by
  cases p with
  | nil => decide
  | cons r p' =>
    have hs : (pyDumpsIndent2 (r :: p')).data =
        '[' :: '\n' :: (payloadBodyChars (r :: p') ++ ['\n', ']']) := rfl
    have hbound : fuelBound (r :: p') ≤ (pyDumpsIndent2 (r :: p')).data.length + 1 := by
      have h1 := fuelBound_le_itemsBlob (r :: p') []
      rw [hs, payloadBody_blob (r :: p') (by simp)]
      simp only [List.length_cons]
      omega
    rw [pyLoads.eq_def, hs, payloadBody_blob (r :: p') (by simp),
      skipWs_cons_not_ws '[' _ (by decide)]
    simp only []
    simp only [if_true]
    rw [skipWs_ws '\n' _ (by decide), skipWs_ws ' ' _ (by decide),
      skipWs_ws ' ' _ (by decide), skipWs_itemsBlob (r :: p') (by simp) []]
    obtain ⟨cs', hc⟩ := itemsBlob_head (r :: p') (by simp) []
    rw [hc]
    simp only []
    rw [if_neg (by decide : ¬ (('{' : Char) = ']')), ← hc]
    rw [parseItems_print (r :: p') _ [] hp (by simp)
      (by have h1 := fuelBound_le_itemsBlob (r :: p') []
          simp only [List.length_cons]
          omega)]
    simp [skipWs]

/-- Amended C4: for a 200 response, the raw artifact's content is the
indent-2 re-serialization of the parsed payload — a semantically equal
JSON document (it parses back to the very same payload) — and it is
byte-for-byte identical to the response body only in the degenerate case
where the body already is that exact pretty-printed form. -/
theorem raw_artifact_reserialized (resp : HttpResponse) (city state : String)
    (payload : Payload)
    (h200 : resp.status = 200)
    (hparse : pyLoads resp.text = some payload) :
    (extract_properties resp city state).written =
      some (extract_file_name city state, pyDumpsIndent2 payload) ∧
    pyLoads (pyDumpsIndent2 payload) = some payload ∧
    ((extract_properties resp city state).written.map Prod.snd = some resp.text ↔
      pyDumpsIndent2 payload = resp.text) := by
  have h1 : (extract_properties resp city state).written =
      some (extract_file_name city state, pyDumpsIndent2 payload) := by
    simp [extract_properties, h200, hparse]
  refine ⟨h1, pyLoads_print payload (pyLoads_valid _ _ hparse), ?_⟩
  rw [h1]
  simp

/-- Witness for amended C4: a 200 response with body `[\x7b"id": 1\x7d]`. -/
theorem raw_artifact_reserialized_witness :
    (extract_properties (HttpResponse.mk 200 "[\x7b\"id\": 1\x7d]") "Houston" "TX").written =
      some (extract_file_name "Houston" "TX", pyDumpsIndent2 [[("id", Value.vnum 1)]]) ∧
    pyLoads (pyDumpsIndent2 [[("id", Value.vnum 1)]]) = some [[("id", Value.vnum 1)]] ∧
    ((extract_properties (HttpResponse.mk 200 "[\x7b\"id\": 1\x7d]") "Houston" "TX").written.map
        Prod.snd = some "[\x7b\"id\": 1\x7d]" ↔
      pyDumpsIndent2 [[("id", Value.vnum 1)]] = "[\x7b\"id\": 1\x7d]") :=
  raw_artifact_reserialized (HttpResponse.mk 200 "[\x7b\"id\": 1\x7d]") "Houston" "TX"
    [[("id", Value.vnum 1)]] rfl (by decide)

/-- Counterexample to C4 as stated: the compact body `[\x7b"id": 1\x7d]`
parses fine, but the persisted artifact is its indent-2 pretty-printing,
which is a different byte string (though it parses back to the same
payload), so "byte-for-byte identical to the response body" is false. -/
theorem raw_artifact_counterexample :
    pyLoads "[\x7b\"id\": 1\x7d]" = some [[("id", Value.vnum 1)]] ∧
    (extract_properties (HttpResponse.mk 200 "[\x7b\"id\": 1\x7d]") "Houston" "TX").written =
      some (extract_file_name "Houston" "TX", pyDumpsIndent2 [[("id", Value.vnum 1)]]) ∧
    pyDumpsIndent2 [[("id", Value.vnum 1)]] ≠ "[\x7b\"id\": 1\x7d]" ∧
    pyLoads (pyDumpsIndent2 [[("id", Value.vnum 1)]]) = some [[("id", Value.vnum 1)]] := by
  decide

end RealState
